import Mathlib

/-!
# Basket: sharded containers over a name-addressed RPC fabric

A shallow embedding of `include/basket/map/map.cpp`,
`include/basket/priority_queue/priority_queue.cpp`,
`include/basket/priority_queue/distributed_priority_queue.cpp` and
`src/basket/communication/rpc_lib_templ.cpp`.

* A cluster is the number of entries of `server_list` together with the
  local store of every server. Server `i` has run the constructor with
  `is_server`, so its dispatcher holds the handlers the constructor binds.
* A handle's own store (`mymap`, `queue`) is the shared-memory segment
  `name_my_server`, which is the local store of server `my_server`.
* `RPC.call` resolves the server by index, looks the function name up among
  the bound handlers, checks the argument count against the bound functor
  and runs it on that server. The dispatch identifies an endpoint with its
  index in `server_list`; the host and port arithmetic of `RPC::call` is
  `RPC.call_endpoint`.
* The containers of the standard library are kept as the sequence of their
  elements in iteration order: an ordered map ascending by `Compare`, a
  priority queue with its top first.
* Every container operation returns `Except RpcError (result × cluster)`.
* Unsigned machine integers are natural numbers, reduced modulo `2 ^ 16` or
  `2 ^ 64` where the source narrows them.
-/

namespace basket

/-! ## RPC fabric -/

/-- The ways an RPC round trip fails: `server_list->at` out of range, a name
no handler is bound to, an argument count that differs from the bound
functor's parameter count, a payload that does not convert to the requested
type, and a handler chain that does not come back. -/
inductive RpcError where
  | out_of_range
  | no_such_function
  | wrong_arity
  | bad_cast
  | no_reply
  deriving DecidableEq, Repr

/-- The state of the job: `server_list` holds `server_list` hosts and server
`i` owns the local store `shard i` (the shared-memory segment
`name_i`). -/
structure Cluster (σ : Type) where
  server_list : Nat
  shard : Nat → σ

/-- Replace the local store of server `i`. -/
def Cluster.set {σ : Type} (c : Cluster σ) (i : Nat) (s : σ) : Cluster σ :=
  { c with shard := Function.update c.shard i s }

/-- Run a mutex-guarded local operation `f` on the store of server `i`. -/
def Cluster.run {σ ρ : Type} (c : Cluster σ) (i : Nat) (f : σ → ρ × σ) :
    ρ × Cluster σ :=
  ((f (c.shard i)).1, c.set i (f (c.shard i)).2)

/-- A handler registered with `rpc->bind(name, func)`: its name, the
parameter count of the bound `std::function`, and the functor itself, run on
the server `self` whose constructor bound it (the `this` of `std::bind`). -/
structure Bound (σ μ : Type) where
  name : String
  arity : Nat
  func : Nat → List μ → Cluster σ → Except RpcError (μ × Cluster σ)

/-- `RPC::call(server_index, func_name, args...)`: connect to
`server_list->at(server_index)` and forward `func_name` and the arguments to
`rpc::client::call`. The dispatcher of the `rpc::server` finds the functor
that `bind` registered under the name (`no_such_function` when there is
none), rejects a call whose argument count is not the parameter count of
that functor (`wrong_arity`), and otherwise runs it. -/
def RPC.call {σ μ : Type} (funcs : List (Bound σ μ)) (c : Cluster σ)
    (server_index : Nat) (func_name : String) (args : List μ) :
    Except RpcError (μ × Cluster σ) :=
  if server_index < c.server_list then
    match funcs.find? (fun b => b.name == func_name) with
    | none => .error .no_such_function
    | some b =>
      if args.length = b.arity then b.func server_index args c
      else .error .wrong_arity
  else .error .out_of_range

/-- Conversion of an integer value to `int16_t`: the value modulo `2 ^ 16`
that lies in `[-2 ^ 15, 2 ^ 15)`. -/
def to_int16 (n : Int) : Int := (n + 2 ^ 15) % 2 ^ 16 - 2 ^ 15

/-- Conversion of an integer value to `uint16_t`: the value modulo
`2 ^ 16`. -/
def to_uint16 (n : Int) : Nat := (n % 2 ^ 16).toNat

/-- The endpoint `RPC::call` connects to:
`int16_t port = server_port + server_index`, then
`rpc::client client(server_list->at(server_index).c_str(), port)`, whose
port parameter is a `uint16_t`. No endpoint when `at` is out of range. -/
def RPC.call_endpoint (server_list : List String)
    (server_port server_index : Nat) : Option (String × Nat) :=
  let port : Int := to_int16 ((server_port : Int) + (server_index : Int))
  match server_list.get? server_index with
  | some host => some (host, to_uint16 port)
  | none => none

/-- The endpoint `RPC::async_call` connects to: the same two statements as
in `RPC::call`. -/
def RPC.async_call_endpoint (server_list : List String)
    (server_port server_index : Nat) : Option (String × Nat) :=
  let port : Int := to_int16 ((server_port : Int) + (server_index : Int))
  match server_list.get? server_index with
  | some host => some (host, to_uint16 port)
  | none => none

/-- The operation suffixes of the handler names. -/
def ops : List String :=
  ["Put", "Get", "Erase", "Contains", "GetAllData", "Push", "Pop", "Top",
    "Size"]

/-- The handler name of an operation of a collection:
`"{collection_name}_{op}"`. -/
def handler_name (collection_name op : String) : String :=
  collection_name ++ "_" ++ op

/-! ## Template parameters -/

/-- The template parameters `KeyType` and `Compare` of `basket::map` with
the `keyHash` member (`std::hash<KeyType>`, a `size_t`). -/
class Key (K : Type) where
  Compare : K → K → Bool
  keyHash : K → Nat

/-- A range-typed key: a key with a member `Contains(other)`. -/
class RangeKey (K : Type) extends Key K where
  Contains : K → K → Bool

/-- The `Compare` named requirement: a strict weak ordering. -/
class StrictWeak (K : Type) [Key K] : Prop where
  irrefl : ∀ a : K, Key.Compare a a = false
  trans : ∀ a b c : K, Key.Compare a b = true → Key.Compare b c = true →
    Key.Compare a c = true
  incomp : ∀ a b c : K, Key.Compare a b = false → Key.Compare b a = false →
    Key.Compare b c = false → Key.Compare c b = false →
    Key.Compare a c = false ∧ Key.Compare c a = false

/-- Two keys are equivalent when neither is ordered before the other. -/
def equiv {K : Type} [Key K] (a b : K) : Prop :=
  Key.Compare a b = false ∧ Key.Compare b a = false

instance {K : Type} [Key K] (a b : K) : Decidable (equiv a b) := by
  unfold equiv; exact inferInstance

/-! ## The ordered local store (`MyMap`) -/

/-- The local store of a map shard: `boost::interprocess::map<KeyType,
MappedType, Compare>`, kept as the sequence of its entries in iteration
order. -/
abbrev MyMap (K V : Type) := List (K × V)

namespace MyMap

variable {K V : Type} [Key K]

/-- A well-formed store: strictly ascending by `Compare`. -/
def Sorted (m : MyMap K V) : Prop :=
  m.Pairwise (fun a b => Key.Compare a.1 b.1 = true)

/-- `lower_bound(key)`: the position of the first entry whose key is not
ordered before `key`; `m.length` is `end()`. -/
def lower_bound : MyMap K V → K → Nat
  | [], _ => 0
  | e :: rest, key =>
    if Key.Compare e.1 key then lower_bound rest key + 1 else 0

/-- `find(key)`: the entry at the lower bound when its key is equivalent to
`key`, else `end()`. -/
def find : MyMap K V → K → Option (K × V)
  | [], _ => none
  | e :: rest, key =>
    if Key.Compare e.1 key then find rest key
    else if Key.Compare key e.1 then none
    else some e

/-- `insert_or_assign(key, data)`: assign to the entry with an equivalent key
(the stored key is kept) or insert a new entry at the lower bound. -/
def insert_or_assign : MyMap K V → K → V → MyMap K V
  | [], key, data => [(key, data)]
  | e :: rest, key, data =>
    if Key.Compare e.1 key then e :: insert_or_assign rest key data
    else if Key.Compare key e.1 then (key, data) :: e :: rest
    else (e.1, data) :: rest

/-- `erase(key)`: remove the entry with an equivalent key; returns the number
of entries removed and the remaining store. -/
def erase : MyMap K V → K → Nat × MyMap K V
  | [], _ => (0, [])
  | e :: rest, key =>
    if Key.Compare e.1 key then ((erase rest key).1, e :: (erase rest key).2)
    else if Key.Compare key e.1 then (0, e :: rest)
    else (1, rest)

end MyMap

/-! ## `basket::map` -/

/-- What travels in a request to or a reply from a map handler. -/
inductive MapObj (K V : Type) where
  | key (k : K)
  | data (v : V)
  | flag (b : Bool)
  | found (p : Bool × V)
  | entries (l : List (K × V))

/-- `.template as<bool>()`. -/
def MapObj.as_bool {K V σ : Type} :
    MapObj K V × σ → Except RpcError (Bool × σ)
  | (.flag b, s) => .ok (b, s)
  | _ => .error .bad_cast

/-- `.template as<std::pair<bool, MappedType>>()`. -/
def MapObj.as_pair {K V σ : Type} :
    MapObj K V × σ → Except RpcError ((Bool × V) × σ)
  | (.found p, s) => .ok (p, s)
  | _ => .error .bad_cast

/-- `.template as<std::vector<std::pair<KeyType, MappedType>>>()`. -/
def MapObj.as_vector {K V σ : Type} :
    MapObj K V × σ → Except RpcError (List (K × V) × σ)
  | (.entries l, s) => .ok (l, s)
  | _ => .error .bad_cast

/-- The members of a `basket::map` handle that its operations read. The
handle's `mymap` is the store of server `my_server`. -/
structure map (K V : Type) where
  is_server : Bool
  my_server : Nat
  num_servers : Nat
  server_on_node : Bool
  func_prefix : String

namespace map

variable {K V : Type}

/-- `map::LocalPut`: `mymap->insert_or_assign(key, data); return true`. -/
def LocalPut [Key K] (key : K) (data : V) (mymap : MyMap K V) :
    Bool × MyMap K V :=
  (true, mymap.insert_or_assign key data)

/-- `map::LocalGet`: `(true, it->second)` when `find(key)` is not `end()`,
else `(false, MappedType())`. -/
def LocalGet [Key K] [Inhabited V] (key : K) (mymap : MyMap K V) :
    (Bool × V) × MyMap K V :=
  match mymap.find key with
  | some e => ((true, e.2), mymap)
  | none => ((false, default), mymap)

/-- `map::LocalErase`: `s = mymap->erase(key); return (s > 0,
MappedType())`. -/
def LocalErase [Key K] [Inhabited V] (key : K) (mymap : MyMap K V) :
    (Bool × V) × MyMap K V :=
  ((decide ((mymap.erase key).1 > 0), default), (mymap.erase key).2)

/-- The forward scan of `map::LocalContainsInServer`: emit entries while one
of the two containments holds, stop at the first entry where neither does. -/
def scan [RangeKey K] (key : K) : List (K × V) → List (K × V)
  | [] => []
  | e :: rest =>
    if !(RangeKey.Contains key e.1 || RangeKey.Contains e.1 key) then []
    else e :: scan key rest

/-- `map::LocalContainsInServer`. Iterators are positions in the store. -/
def LocalContainsInServer [RangeKey K] (key : K) (mymap : MyMap K V) :
    List (K × V) × MyMap K V :=
  let size := mymap.length
  if size = 0 then ([], mymap)
  else if size = 1 then (mymap.take 1, mymap)
  else
    let lower_bound := mymap.lower_bound key
    if lower_bound = mymap.length then ([], mymap)
    else
      let lower_bound :=
        if lower_bound ≠ 0 then
          match mymap.get? (lower_bound - 1) with
          | some e =>
            if !RangeKey.Contains key e.1 then lower_bound else lower_bound - 1
          | none => lower_bound
        else lower_bound
      (scan key (mymap.drop lower_bound), mymap)

/-- `map::LocalGetAllDataInServer`: every entry from `begin()` to `end()`. -/
def LocalGetAllDataInServer (mymap : MyMap K V) :
    List (K × V) × MyMap K V :=
  (mymap, mymap)

/-- Lift a local operation to the functor bound on server `self`. -/
def onShard {μ ρ : Type} (wrap : ρ → μ)
    (f : MyMap K V → ρ × MyMap K V) (self : Nat) (c : Cluster (MyMap K V)) :
    Except RpcError (μ × Cluster (MyMap K V)) :=
  .ok (wrap (c.run self f).1, (c.run self f).2)

/-- The handlers the constructor binds when `is_server`, in binding order:
`_Put`, `_Get`, `_Erase`, `_GetAllData`, `_Contains`. -/
def funcs [RangeKey K] [Inhabited V] ( func_prefix : String) :
    List (Bound (MyMap K V) (MapObj K V)) :=
  [ { name := func_prefix ++ "_Put", arity := 2,
      func := fun self args c =>
        match args with
        | [.key k, .data v] => onShard .flag (LocalPut k v) self c
        | _ => .error .bad_cast },
    { name := func_prefix ++ "_Get", arity := 1,
      func := fun self args c =>
        match args with
        | [.key k] => onShard .found (LocalGet k) self c
        | _ => .error .bad_cast },
    { name := func_prefix ++ "_Erase", arity := 1,
      func := fun self args c =>
        match args with
        | [.key k] => onShard .found (LocalErase k) self c
        | _ => .error .bad_cast },
    { name := func_prefix ++ "_GetAllData", arity := 0,
      func := fun self args c =>
        match args with
        | [] => onShard .entries LocalGetAllDataInServer self c
        | _ => .error .bad_cast },
    { name := func_prefix ++ "_Contains", arity := 1,
      func := fun self args c =>
        match args with
        | [.key k] => onShard .entries (LocalContainsInServer k) self c
        | _ => .error .bad_cast } ]

/-- The shard a key is routed to: `key_hash % num_servers` narrowed to
`uint16_t`, with `key_hash` a `size_t`. -/
def key_int [Key K] (h : map K V) (key : K) : Nat :=
  ((Key.keyHash key % 2 ^ 64) % h.num_servers) % 2 ^ 16

/-- `map::Put`. -/
def Put [RangeKey K] [Inhabited V] (h : map K V) (c : Cluster (MyMap K V))
    (key : K) (data : V) : Except RpcError (Bool × Cluster (MyMap K V)) :=
  if h.key_int key = h.my_server && h.server_on_node then
    .ok (c.run h.my_server (LocalPut key data))
  else
    (RPC.call (funcs h.func_prefix) c (h.key_int key)
      ( h.func_prefix ++ "_Put") [.key key, .data data]).bind MapObj.as_bool

/-- `map::Get`. -/
def Get [RangeKey K] [Inhabited V] (h : map K V) (c : Cluster (MyMap K V))
    (key : K) : Except RpcError ((Bool × V) × Cluster (MyMap K V)) :=
  if h.key_int key = h.my_server && h.server_on_node then
    .ok (c.run h.my_server (LocalGet key))
  else
    (RPC.call (funcs h.func_prefix) c (h.key_int key)
      ( h.func_prefix ++ "_Get") [.key key]).bind MapObj.as_pair

/-- `map::Erase`. -/
def Erase [RangeKey K] [Inhabited V] (h : map K V) (c : Cluster (MyMap K V))
    (key : K) : Except RpcError ((Bool × V) × Cluster (MyMap K V)) :=
  if h.key_int key = h.my_server && h.server_on_node then
    .ok (c.run h.my_server (LocalErase key))
  else
    (RPC.call (funcs h.func_prefix) c (h.key_int key)
      ( h.func_prefix ++ "_Erase") [.key key]).bind MapObj.as_pair

/-- `map::ContainsInServer`: the local scan when `server_on_node`, else the
`_Contains` handler of `my_server`. -/
def ContainsInServer [RangeKey K] [Inhabited V] (h : map K V)
    (c : Cluster (MyMap K V)) (key : K) :
    Except RpcError (List (K × V) × Cluster (MyMap K V)) :=
  if h.server_on_node then
    .ok (c.run h.my_server (LocalContainsInServer key))
  else
    (RPC.call (funcs h.func_prefix) c h.my_server
      ( h.func_prefix ++ "_Contains") [.key key]).bind MapObj.as_vector

/-- `map::GetAllDataInServer`: the local enumeration when `server_on_node`,
else the `_GetAllData` handler of `my_server`. -/
def GetAllDataInServer [RangeKey K] [Inhabited V] (h : map K V)
    (c : Cluster (MyMap K V)) :
    Except RpcError (List (K × V) × Cluster (MyMap K V)) :=
  if h.server_on_node then
    .ok (c.run h.my_server LocalGetAllDataInServer)
  else
    (RPC.call (funcs h.func_prefix) c h.my_server
      ( h.func_prefix ++ "_GetAllData") []).bind MapObj.as_vector

/-- The loop `for (int i = 0; i < num_servers; ++i) if (i != my_server)`
of `Contains` and `GetAllData`, over the values `i` still to visit:
`rpc->call(i, name, args)` narrows the `int` to the `uint16_t`
server index and its reply is appended to `final_values`. -/
def fan_out [RangeKey K] [Inhabited V] (h : map K V) (name : String)
    (args : List (MapObj K V)) :
    List Nat → List (K × V) → Cluster (MyMap K V) →
    Except RpcError (List (K × V) × Cluster (MyMap K V))
  | [], final_values, c => .ok (final_values, c)
  | i :: todo, final_values, c =>
    if i ≠ h.my_server then
      match (RPC.call (funcs h.func_prefix) c (i % 2 ^ 16) name args).bind
          MapObj.as_vector with
      | .ok (server, c) => fan_out h name args todo (final_values ++ server) c
      | .error e => .error e
    else fan_out h name args todo final_values c

/-- `map::Contains`. -/
def Contains [RangeKey K] [Inhabited V] (h : map K V)
    (c : Cluster (MyMap K V)) (key : K) :
    Except RpcError (List (K × V) × Cluster (MyMap K V)) :=
  match ContainsInServer h c key with
  | .ok (current_server, c) =>
    fan_out h ( h.func_prefix ++ "_Contains") [.key key]
      (List.range h.num_servers) ([] ++ current_server) c
  | .error e => .error e

/-- `map::GetAllData`. -/
def GetAllData [RangeKey K] [Inhabited V] (h : map K V)
    (c : Cluster (MyMap K V)) :
    Except RpcError (List (K × V) × Cluster (MyMap K V)) :=
  match GetAllDataInServer h c with
  | .ok (current_server, c) =>
    fan_out h ( h.func_prefix ++ "_GetAllData") []
      (List.range h.num_servers) ([] ++ current_server) c
  | .error e => .error e

end map

/-! ## The heap local store (`Queue`) -/

/-- The template parameter `Compare` of the priority queues, on
`MappedType`. -/
class Prio (V : Type) where
  Compare : V → V → Bool

/-- The part of the `Compare` requirement the heap order needs. -/
class PrioOrder (V : Type) [Prio V] : Prop where
  asymm : ∀ a b : V, Prio.Compare a b = true → Prio.Compare b a = false
  trans : ∀ a b c : V, Prio.Compare a b = true → Prio.Compare b c = true →
    Prio.Compare a c = true

/-- The local store of a priority-queue shard:
`std::priority_queue<MappedType, ..., Compare>`, kept as the sequence of its
elements with the top first. -/
abbrev Queue (V : Type) := List V

namespace Queue

variable {V : Type}

/-- `push(data)`: the element goes in front of the first element that
`Compare` orders before it, so the front stays a greatest element. Among
values that are equivalent under `Compare` this keeps the order of
insertion; the heap of the standard library may return such values in
another order, so nothing is stated about the order of equivalent values
beyond what `Compare` tells apart. -/
def push [Prio V] (data : V) : Queue V → Queue V
  | [] => [data]
  | e :: rest =>
    if Prio.Compare e data then data :: e :: rest else e :: push data rest

/-- `size()`. -/
def size (queue : Queue V) : Nat := queue.length

/-- `top()`, defined on a non-empty queue only. -/
def top (queue : Queue V) : Option V := queue.head?

/-- `pop()`. -/
def pop (queue : Queue V) : Queue V := queue.tail

end Queue

/-- What travels in a request to or a reply from a priority-queue handler. -/
inductive QueueObj (V : Type) where
  | data (v : V)
  | index (key_int : Nat)
  | flag (b : Bool)
  | found (p : Bool × V)
  | count (n : Nat)

/-- `.template as<bool>()`. -/
def QueueObj.as_bool {V σ : Type} :
    QueueObj V × σ → Except RpcError (Bool × σ)
  | (.flag b, s) => .ok (b, s)
  | _ => .error .bad_cast

/-- `.template as<std::pair<bool, MappedType>>()`. -/
def QueueObj.as_pair {V σ : Type} :
    QueueObj V × σ → Except RpcError ((Bool × V) × σ)
  | (.found p, s) => .ok (p, s)
  | _ => .error .bad_cast

/-- `.template as<size_t>()`. -/
def QueueObj.as_size {V σ : Type} :
    QueueObj V × σ → Except RpcError (Nat × σ)
  | (.count n, s) => .ok (n, s)
  | _ => .error .bad_cast

/-! ## `basket::priority_queue` -/

/-- The members of a `basket::priority_queue` handle that its operations
read. The handle's `queue` is the store of server `my_server`. -/
structure priority_queue (V : Type) where
  is_server : Bool
  my_server : Nat
  num_servers : Nat
  server_on_node : Bool
  func_prefix : String

namespace priority_queue

variable {V : Type}

/-- `priority_queue::LocalPush`: `queue->push(data); return true`. -/
def LocalPush [Prio V] (data : V) (_key_int : Nat) (queue : Queue V) :
    Bool × Queue V :=
  (true, queue.push data)

/-- `priority_queue::LocalPop`: with `size() > 0` take `top()`, `pop()` and
return `(true, value)`; else `(false, MappedType())`. -/
def LocalPop [Inhabited V] (_key_int : Nat) (queue : Queue V) :
    (Bool × V) × Queue V :=
  if queue.size > 0 then
    match queue.top with
    | some value => ((true, value), queue.pop)
    | none => ((false, default), queue)
  else ((false, default), queue)

/-- `priority_queue::LocalTop`: with `size() > 0` return `(true, top())`;
else `(false, MappedType())`. The queue is not changed. -/
def LocalTop [Inhabited V] (_key_int : Nat) (queue : Queue V) :
    (Bool × V) × Queue V :=
  if queue.size > 0 then
    match queue.top with
    | some value => ((true, value), queue)
    | none => ((false, default), queue)
  else ((false, default), queue)

/-- `priority_queue::LocalSize`. -/
def LocalSize (_key_int : Nat) (queue : Queue V) : Nat × Queue V :=
  (queue.size, queue)

/-- Lift a local operation to the functor bound on server `self`. -/
def onShard {μ ρ : Type} (wrap : ρ → μ)
    (f : Queue V → ρ × Queue V) (self : Nat) (c : Cluster (Queue V)) :
    Except RpcError (μ × Cluster (Queue V)) :=
  .ok (wrap (c.run self f).1, (c.run self f).2)

/-- The handlers the constructor binds when `is_server`, in binding order:
`_Push` takes `(MappedType, uint16_t)`, `_Pop`, `_Top` and `_Size` take
`(uint16_t)`. -/
def funcs [Prio V] [Inhabited V] ( func_prefix : String) :
    List (Bound (Queue V) (QueueObj V)) :=
  [ { name := func_prefix ++ "_Push", arity := 2,
      func := fun self args c =>
        match args with
        | [.data v, .index k] => onShard .flag (LocalPush v k) self c
        | _ => .error .bad_cast },
    { name := func_prefix ++ "_Pop", arity := 1,
      func := fun self args c =>
        match args with
        | [.index k] => onShard .found (LocalPop k) self c
        | _ => .error .bad_cast },
    { name := func_prefix ++ "_Top", arity := 1,
      func := fun self args c =>
        match args with
        | [.index k] => onShard .found (LocalTop k) self c
        | _ => .error .bad_cast },
    { name := func_prefix ++ "_Size", arity := 1,
      func := fun self args c =>
        match args with
        | [.index k] => onShard .count (LocalSize k) self c
        | _ => .error .bad_cast } ]

/-- `priority_queue::Push`: the remote branch is
`rpc->call(key_int, func_prefix+"_Push", data)`. -/
def Push [Prio V] [Inhabited V] (h : priority_queue V)
    (c : Cluster (Queue V)) (data : V) (key_int : Nat) :
    Except RpcError (Bool × Cluster (Queue V)) :=
  if key_int = h.my_server && h.server_on_node then
    .ok (c.run h.my_server (LocalPush data key_int))
  else
    (RPC.call (funcs h.func_prefix) c key_int
      ( h.func_prefix ++ "_Push") [.data data]).bind QueueObj.as_bool

/-- `priority_queue::Pop`: the remote branch is
`rpc->call(key_int, func_prefix+"_Pop")`. -/
def Pop [Prio V] [Inhabited V] (h : priority_queue V)
    (c : Cluster (Queue V)) (key_int : Nat) :
    Except RpcError ((Bool × V) × Cluster (Queue V)) :=
  if key_int = h.my_server && h.server_on_node then
    .ok (c.run h.my_server (LocalPop key_int))
  else
    (RPC.call (funcs h.func_prefix) c key_int
      ( h.func_prefix ++ "_Pop") []).bind QueueObj.as_pair

/-- `priority_queue::Top`: the remote branch is
`rpc->call(key_int, func_prefix+"_Pop")`. -/
def Top [Prio V] [Inhabited V] (h : priority_queue V)
    (c : Cluster (Queue V)) (key_int : Nat) :
    Except RpcError ((Bool × V) × Cluster (Queue V)) :=
  if key_int = h.my_server && h.server_on_node then
    .ok (c.run h.my_server (LocalTop key_int))
  else
    (RPC.call (funcs h.func_prefix) c key_int
      ( h.func_prefix ++ "_Pop") []).bind QueueObj.as_pair

/-- `priority_queue::Size`: the remote branch is
`rpc->call(key_int, func_prefix+"_Size")`. -/
def Size [Prio V] [Inhabited V] (h : priority_queue V)
    (c : Cluster (Queue V)) (key_int : Nat) :
    Except RpcError (Nat × Cluster (Queue V)) :=
  if key_int = h.my_server && h.server_on_node then
    .ok (c.run h.my_server (LocalSize key_int))
  else
    (RPC.call (funcs h.func_prefix) c key_int
      ( h.func_prefix ++ "_Size") []).bind QueueObj.as_size

end priority_queue

/-! ## `basket::DistributedPriorityQueue` -/

/-- The members of a `DistributedPriorityQueue` handle that its operations
read. The handle's `queue` is the store of server `my_server`. -/
structure DistributedPriorityQueue (V : Type) where
  is_server : Bool
  my_server : Nat
  num_servers : Nat
  func_prefix : String

namespace DistributedPriorityQueue

variable {V : Type}

/-- `DistributedPriorityQueue::Push` over the handler table `funcs` of the
servers; its remote branch is `rpc->call(key_int, func_prefix+"_Push",
data)`. -/
def PushOver [Prio V] (funcs : List (Bound (Queue V) (QueueObj V)))
    (h : DistributedPriorityQueue V) (c : Cluster (Queue V)) (data : V)
    (key_int : Nat) : Except RpcError (Bool × Cluster (Queue V)) :=
  if key_int = h.my_server then
    .ok (c.run h.my_server (fun queue => (true, queue.push data)))
  else
    (RPC.call funcs c key_int ( h.func_prefix ++ "_Push")
      [.data data]).bind QueueObj.as_bool

/-- `DistributedPriorityQueue::Pop` over the handler table `funcs`; its local
branch is the body of `priority_queue::LocalPop`. -/
def PopOver [Inhabited V] (funcs : List (Bound (Queue V) (QueueObj V)))
    (h : DistributedPriorityQueue V) (c : Cluster (Queue V))
    (key_int : Nat) : Except RpcError ((Bool × V) × Cluster (Queue V)) :=
  if key_int = h.my_server then
    .ok (c.run h.my_server (priority_queue.LocalPop key_int))
  else
    (RPC.call funcs c key_int ( h.func_prefix ++ "_Pop")
      []).bind QueueObj.as_pair

/-- `DistributedPriorityQueue::Top` over the handler table `funcs`; its local
branch is the body of `priority_queue::LocalTop`, its remote branch is
`rpc->call(key_int, func_prefix+"_Pop")`. -/
def TopOver [Inhabited V] (funcs : List (Bound (Queue V) (QueueObj V)))
    (h : DistributedPriorityQueue V) (c : Cluster (Queue V))
    (key_int : Nat) : Except RpcError ((Bool × V) × Cluster (Queue V)) :=
  if key_int = h.my_server then
    .ok (c.run h.my_server (priority_queue.LocalTop key_int))
  else
    (RPC.call funcs c key_int ( h.func_prefix ++ "_Pop")
      []).bind QueueObj.as_pair

/-- `DistributedPriorityQueue::Size` over the handler table `funcs`; its
local branch is the body of `priority_queue::LocalSize`. -/
def SizeOver (funcs : List (Bound (Queue V) (QueueObj V)))
    (h : DistributedPriorityQueue V) (c : Cluster (Queue V))
    (key_int : Nat) : Except RpcError (Nat × Cluster (Queue V)) :=
  if key_int = h.my_server then
    .ok (c.run h.my_server (priority_queue.LocalSize key_int))
  else
    (RPC.call funcs c key_int ( h.func_prefix ++ "_Size")
      []).bind QueueObj.as_size

/-- The handlers the constructor binds when `is_server`: the public `Push`,
`Pop`, `Top` and `Size` of the server's own handle, which may call on to
another server. `depth` bounds the length of such a chain of calls; a chain
that is longer gives `no_reply`. -/
def funcs [Prio V] [Inhabited V] (h : DistributedPriorityQueue V) :
    Nat → List (Bound (Queue V) (QueueObj V))
  | 0 =>
    [ { name := h.func_prefix ++ "_Push", arity := 2,
        func := fun _ _ _ => .error .no_reply },
      { name := h.func_prefix ++ "_Pop", arity := 1,
        func := fun _ _ _ => .error .no_reply },
      { name := h.func_prefix ++ "_Top", arity := 1,
        func := fun _ _ _ => .error .no_reply },
      { name := h.func_prefix ++ "_Size", arity := 1,
        func := fun _ _ _ => .error .no_reply } ]
  | depth + 1 =>
    [ { name := h.func_prefix ++ "_Push", arity := 2,
        func := fun self args c =>
          match args with
          | [.data v, .index k] =>
            (PushOver (funcs h depth) { h with my_server := self } c v k).map
              (fun r => (.flag r.1, r.2))
          | _ => .error .bad_cast },
      { name := h.func_prefix ++ "_Pop", arity := 1,
        func := fun self args c =>
          match args with
          | [.index k] =>
            (PopOver (funcs h depth) { h with my_server := self } c k).map
              (fun r => (.found r.1, r.2))
          | _ => .error .bad_cast },
      { name := h.func_prefix ++ "_Top", arity := 1,
        func := fun self args c =>
          match args with
          | [.index k] =>
            (TopOver (funcs h depth) { h with my_server := self } c k).map
              (fun r => (.found r.1, r.2))
          | _ => .error .bad_cast },
      { name := h.func_prefix ++ "_Size", arity := 1,
        func := fun self args c =>
          match args with
          | [.index k] =>
            (SizeOver (funcs h depth) { h with my_server := self } c k).map
              (fun r => (.count r.1, r.2))
          | _ => .error .bad_cast } ]

/-- `DistributedPriorityQueue::Push`. -/
def Push [Prio V] [Inhabited V] (depth : Nat)
    (h : DistributedPriorityQueue V) (c : Cluster (Queue V)) (data : V)
    (key_int : Nat) : Except RpcError (Bool × Cluster (Queue V)) :=
  PushOver (funcs h depth) h c data key_int

/-- `DistributedPriorityQueue::Pop`. -/
def Pop [Prio V] [Inhabited V] (depth : Nat)
    (h : DistributedPriorityQueue V) (c : Cluster (Queue V))
    (key_int : Nat) : Except RpcError ((Bool × V) × Cluster (Queue V)) :=
  PopOver (funcs h depth) h c key_int

/-- `DistributedPriorityQueue::Top`. -/
def Top [Prio V] [Inhabited V] (depth : Nat)
    (h : DistributedPriorityQueue V) (c : Cluster (Queue V))
    (key_int : Nat) : Except RpcError ((Bool × V) × Cluster (Queue V)) :=
  TopOver (funcs h depth) h c key_int

/-- `DistributedPriorityQueue::Size`. -/
def Size [Prio V] [Inhabited V] (depth : Nat)
    (h : DistributedPriorityQueue V) (c : Cluster (Queue V))
    (key_int : Nat) : Except RpcError (Nat × Cluster (Queue V)) :=
  SizeOver (funcs h depth) h c key_int

end DistributedPriorityQueue

/-! ## Instances used in the examples -/

/-- A closed integer interval `[lo, hi]`, the range-typed key of the
range-contains scenario. -/
structure Interval where
  lo : Int
  hi : Int
  deriving DecidableEq, Repr

/-- Intervals ordered ascending by lower endpoint, `Contains` is interval
inclusion, and the hash is the distance of the lower endpoint from zero. -/
instance : RangeKey Interval where
  Compare a b := decide (a.lo < b.lo)
  keyHash a := a.lo.natAbs
  Contains a b := decide (a.lo ≤ b.lo ∧ b.hi ≤ a.hi)

/-- Integers under `std::less`: a max-heap. -/
instance : Prio Int where
  Compare a b := decide (a < b)

/-- Integers under `std::less` meet the heap-order requirement. -/
instance : PrioOrder Int where
  asymm a b := by
    simp only [Prio.Compare, decide_eq_true_eq, decide_eq_false_iff_not]
    omega
  trans a b c := by
    simp only [Prio.Compare, decide_eq_true_eq]
    omega

/-- Intervals by lower endpoint are a strict weak ordering. -/
instance : StrictWeak Interval where
  irrefl a := by simp [Key.Compare]
  trans a b c := by
    simp only [Key.Compare, decide_eq_true_eq]
    omega
  incomp a b c := by
    simp only [Key.Compare, decide_eq_false_iff_not]
    omega

/-- A client loop: `Put` every pair of `kvs` in order, stopping at the first
call that fails. -/
def map.PutAll {K V : Type} [RangeKey K] [Inhabited V] (h : map K V) :
    List (K × V) → Cluster (MyMap K V) →
    Except RpcError (Cluster (MyMap K V))
  | [], c => .ok c
  | (key, data) :: kvs, c =>
    match h.Put c key data with
    | .ok (_, c) => map.PutAll h kvs c
    | .error e => .error e

/-- The cluster states of a map on `N` servers that are reachable from
all-empty shards by `Put` and `Erase` calls issued through handles with
`num_servers = N` and `my_server < N`. -/
inductive map.Reachable {K V : Type} [RangeKey K] [Inhabited V] (N : Nat) :
    Cluster (MyMap K V) → Prop where
  | init (c : Cluster (MyMap K V)) (hS : c.server_list = N)
      (hempty : ∀ i, c.shard i = []) : map.Reachable N c
  | put (h : map K V) (c c' : Cluster (MyMap K V)) (key : K) (data : V)
      (b : Bool) (hc : map.Reachable N c) (hN : h.num_servers = N)
      (hmy : h.my_server < N) (hput : h.Put c key data = .ok (b, c')) :
      map.Reachable N c'
  | erase (h : map K V) (c c' : Cluster (MyMap K V)) (key : K)
      (r : Bool × V) (hc : map.Reachable N c) (hN : h.num_servers = N)
      (hmy : h.my_server < N) (herase : h.Erase c key = .ok (r, c')) :
      map.Reachable N c'

/-- A client loop: `Push` every value of `vs` to shard `key_int` in order,
stopping at the first call that fails. -/
def priority_queue.PushAll {V : Type} [Prio V] [Inhabited V]
    (h : priority_queue V) (key_int : Nat) :
    List V → Cluster (Queue V) → Except RpcError (Cluster (Queue V))
  | [], c => .ok c
  | data :: vs, c =>
    match h.Push c data key_int with
    | .ok (_, c) => priority_queue.PushAll h key_int vs c
    | .error e => .error e

/-- A client loop: `Pop` shard `key_int` `n` times, collecting the replies
in order and stopping at the first call that fails. -/
def priority_queue.PopN {V : Type} [Prio V] [Inhabited V]
    (h : priority_queue V) (key_int : Nat) :
    Nat → Cluster (Queue V) →
    Except RpcError (List (Bool × V) × Cluster (Queue V))
  | 0, c => .ok ([], c)
  | n + 1, c =>
    match h.Pop c key_int with
    | .ok (r, c) =>
      match priority_queue.PopN h key_int n c with
      | .ok (rs, c) => .ok (r :: rs, c)
      | .error e => .error e
    | .error e => .error e


/-- The operations of the priority-queue handles. -/
inductive QueueOp where
  | Push
  | Pop
  | Top
  | Size
  deriving DecidableEq, Repr

/-- The RPC in the remote branch of each operation of
`basket::priority_queue`: the function name it passes to `rpc->call` and
the number of arguments it passes after the name (`data` for `Push`, none
for `Pop`, `Top` and `Size`; `Top` passes the name of `_Pop`). -/
def priority_queue.remote_call ( func_prefix : String) :
    QueueOp → String × Nat
  | .Push => ( func_prefix ++ "_Push", 1)
  | .Pop => ( func_prefix ++ "_Pop", 0)
  | .Top => ( func_prefix ++ "_Pop", 0)
  | .Size => ( func_prefix ++ "_Size", 0)

/-- The RPC in the remote branch of each operation of
`DistributedPriorityQueue`: the same names and argument counts as in
`basket::priority_queue`. -/
def DistributedPriorityQueue.remote_call ( func_prefix : String) :
    QueueOp → String × Nat
  | .Push => ( func_prefix ++ "_Push", 1)
  | .Pop => ( func_prefix ++ "_Pop", 0)
  | .Top => ( func_prefix ++ "_Pop", 0)
  | .Size => ( func_prefix ++ "_Size", 0)

/-! ## Handler names -/

theorem append_left_cancel (p a b : String) : p ++ a = p ++ b ↔ a = b := by
  constructor
  · intro h
    have h2 : (p ++ a).data = (p ++ b).data := by rw [h]
    simp only [String.data_append] at h2
    exact String.ext (List.append_cancel_left h2)
  · intro h; rw [h]

theorem append_beq (p a b : String) : (p ++ a == p ++ b) = (a == b) := by
  rcases h : (a == b) with _ | _
  · rw [beq_eq_false_iff_ne] at h ⊢
    exact fun h2 => h ((append_left_cancel p a b).1 h2)
  · rw [beq_iff_eq] at h ⊢
    rw [h]

theorem Cluster.set_self {σ : Type} (c : Cluster σ) (i : Nat) :
    c.set i (c.shard i) = c := by
  cases c
  simp [Cluster.set]

theorem Cluster.set_shard_same {σ : Type} (c : Cluster σ) (i : Nat) (s : σ) :
    (c.set i s).shard i = s := by
  simp [Cluster.set]

theorem Cluster.set_shard_other {σ : Type} (c : Cluster σ) (i j : Nat) (s : σ)
    (hij : j ≠ i) : (c.set i s).shard j = c.shard j := by
  simp [Cluster.set, Function.update_noteq hij]

theorem Cluster.set_server_list {σ : Type} (c : Cluster σ) (i : Nat) (s : σ) :
    (c.set i s).server_list = c.server_list := rfl

namespace map

variable {K V : Type} [RangeKey K] [Inhabited V]

theorem call_Put (p : String) (c : Cluster (MyMap K V)) (i : Nat) (key : K)
    (data : V) (hi : i < c.server_list) :
    (RPC.call (funcs p) c i (p ++ "_Put") [.key key, .data data]).bind
        MapObj.as_bool
      = .ok (true, c.set i ((c.shard i).insert_or_assign key data)) := by
  simp [RPC.call, funcs, hi, List.find?, onShard, Cluster.run, LocalPut,
    MapObj.as_bool, Except.bind]

theorem call_Get (p : String) (c : Cluster (MyMap K V)) (i : Nat) (key : K)
    (hi : i < c.server_list) :
    (RPC.call (funcs p) c i (p ++ "_Get") [.key key]).bind MapObj.as_pair
      = .ok ((LocalGet key (c.shard i)).1,
          c.set i (LocalGet key (c.shard i)).2) := by
  simp [RPC.call, funcs, hi, List.find?, onShard, Cluster.run,
    MapObj.as_pair, Except.bind, append_beq]

theorem call_Erase (p : String) (c : Cluster (MyMap K V)) (i : Nat) (key : K)
    (hi : i < c.server_list) :
    (RPC.call (funcs p) c i (p ++ "_Erase") [.key key]).bind MapObj.as_pair
      = .ok ((LocalErase key (c.shard i)).1,
          c.set i (LocalErase key (c.shard i)).2) := by
  simp [RPC.call, funcs, hi, List.find?, onShard, Cluster.run,
    MapObj.as_pair, Except.bind, append_beq]

theorem call_GetAllData (p : String) (c : Cluster (MyMap K V)) (i : Nat)
    (hi : i < c.server_list) :
    (RPC.call (funcs p) c i (p ++ "_GetAllData") []).bind MapObj.as_vector
      = .ok (c.shard i, c) := by
  simp [RPC.call, funcs, hi, List.find?, onShard, Cluster.run,
    MapObj.as_vector, Except.bind, append_beq,
    LocalGetAllDataInServer, Cluster.set_self]

theorem call_Contains (p : String) (c : Cluster (MyMap K V)) (i : Nat)
    (key : K) (hi : i < c.server_list) :
    (RPC.call (funcs p) c i (p ++ "_Contains") [.key key]).bind
        MapObj.as_vector
      = .ok ((LocalContainsInServer key (c.shard i)).1, c) := by
  have h2 : (LocalContainsInServer key (c.shard i)).2 = c.shard i := by
    unfold LocalContainsInServer
    simp only []
    split_ifs <;> rfl
  simp [RPC.call, funcs, hi, List.find?, onShard, Cluster.run,
    MapObj.as_vector, Except.bind, append_beq, h2, Cluster.set_self]

end map

/-! ## The ordered store -/

theorem StrictWeak.cotrans {K : Type} [Key K] [StrictWeak K] (a b c : K)
    (h : Key.Compare a b = true) :
    Key.Compare a c = true ∨ Key.Compare c b = true := by
  by_contra hne
  simp only [not_or, Bool.not_eq_true] at hne
  obtain ⟨hac, hcb⟩ := hne
  have hca : Key.Compare c a = false := by
    by_contra hx
    simp only [Bool.not_eq_false] at hx
    have := StrictWeak.trans c a b hx h
    rw [hcb] at this; exact Bool.noConfusion this
  have hbc : Key.Compare b c = false := by
    by_contra hx
    simp only [Bool.not_eq_false] at hx
    have := StrictWeak.trans a b c h hx
    rw [hac] at this; exact Bool.noConfusion this
  have := (StrictWeak.incomp a c b hac hca hcb hbc).1
  rw [h] at this; exact Bool.noConfusion this

namespace MyMap

variable {K V : Type} [Key K]

theorem erase_insert_or_assign [StrictWeak K] (m : MyMap K V) (key : K)
    (data : V) : ((m.insert_or_assign key data).erase key).1 = 1 := by
  induction m with
  | nil => simp [insert_or_assign, erase, StrictWeak.irrefl]
  | cons e rest ih =>
    by_cases h1 : Key.Compare e.1 key = true
    · simpa [insert_or_assign, erase, h1] using ih
    · by_cases h2 : Key.Compare key e.1 = true
      · simp [insert_or_assign, erase, h1, h2, StrictWeak.irrefl]
      · simp [insert_or_assign, erase, h1, h2]

theorem mem_insert_or_assign (m : MyMap K V) (key : K) (data : V)
    (x : K × V) :
    x ∈ m.insert_or_assign key data → x.1 = key ∨ ∃ y ∈ m, x.1 = y.1 := by
  induction m with
  | nil =>
    intro hx
    simp only [insert_or_assign, List.mem_singleton] at hx
    exact Or.inl (by rw [hx])
  | cons e rest ih =>
    intro hx
    cases h1 : Key.Compare e.1 key with
    | true =>
      simp only [insert_or_assign, h1, if_true, List.mem_cons] at hx
      rcases hx with hx | hx
      · exact Or.inr ⟨e, List.mem_cons_self _ _, by rw [hx]⟩
      · rcases ih hx with h | ⟨y, hy, h⟩
        · exact Or.inl h
        · exact Or.inr ⟨y, List.mem_cons_of_mem _ hy, h⟩
    | false =>
      cases h2 : Key.Compare key e.1 with
      | true =>
        simp only [insert_or_assign, h1, h2, if_true, List.mem_cons,
          Bool.false_eq_true, if_false] at hx
        rcases hx with hx | hx | hx
        · exact Or.inl (by rw [hx])
        · exact Or.inr ⟨e, List.mem_cons_self _ _, by rw [hx]⟩
        · exact Or.inr ⟨x, List.mem_cons_of_mem _ hx, rfl⟩
      | false =>
        simp only [insert_or_assign, h1, h2, List.mem_cons,
          Bool.false_eq_true, if_false] at hx
        rcases hx with hx | hx
        · exact Or.inr ⟨e, List.mem_cons_self _ _, by rw [hx]⟩
        · exact Or.inr ⟨x, List.mem_cons_of_mem _ hx, rfl⟩

theorem sorted_insert_or_assign [StrictWeak K] (m : MyMap K V) (key : K)
    (data : V) (hm : m.Sorted) : (m.insert_or_assign key data).Sorted := by
  induction m with
  | nil => simp [insert_or_assign, Sorted]
  | cons e rest ih =>
    unfold Sorted at hm
    rw [List.pairwise_cons] at hm
    obtain ⟨he, hrest⟩ := hm
    cases h1 : Key.Compare e.1 key with
    | true =>
      simp only [insert_or_assign, h1, if_true]
      unfold Sorted
      rw [List.pairwise_cons]
      refine ⟨?_, ih hrest⟩
      intro x hx
      rcases mem_insert_or_assign rest key data x hx with h | ⟨y, hy, h⟩
      · rw [h]; exact h1
      · rw [h]; exact he y hy
    | false =>
      cases h2 : Key.Compare key e.1 with
      | true =>
        simp only [insert_or_assign, h1, h2, if_true, Bool.false_eq_true,
          if_false]
        unfold Sorted
        rw [List.pairwise_cons, List.pairwise_cons]
        refine ⟨?_, he, hrest⟩
        intro x hx
        rcases List.mem_cons.1 hx with hx | hx
        · rw [hx]; exact h2
        · exact StrictWeak.trans _ _ _ h2 (he x hx)
      | false =>
        simp only [insert_or_assign, h1, h2, Bool.false_eq_true, if_false]
        unfold Sorted
        rw [List.pairwise_cons]
        exact ⟨he, hrest⟩

theorem find_erase [StrictWeak K] (m : MyMap K V) (key : K)
    (hm : m.Sorted) : (m.erase key).2.find key = none := by
  induction m with
  | nil => simp [erase, find]
  | cons e rest ih =>
    unfold Sorted at hm
    rw [List.pairwise_cons] at hm
    obtain ⟨he, hrest⟩ := hm
    by_cases h1 : Key.Compare e.1 key = true
    · simpa [erase, find, h1] using ih hrest
    · by_cases h2 : Key.Compare key e.1 = true
      · simp [erase, find, h1, h2]
      · simp only [erase, h1, h2, if_false]
        cases rest with
        | nil => simp [find]
        | cons r rest2 =>
          have her := he r (List.mem_cons_self _ _)
          have hkr : Key.Compare key r.1 = true := by
            rcases StrictWeak.cotrans e.1 r.1 key her with h | h
            · exact absurd h h1
            · exact h
          have hrk : Key.Compare r.1 key = false := by
            by_contra hx
            simp only [Bool.not_eq_false] at hx
            exact h1 (StrictWeak.trans _ _ _ her hx)
          simp [find, hkr, hrk]

theorem find_of_absent (m : MyMap K V) (key : K)
    (habs : ∀ e ∈ m, ¬ equiv e.1 key) : m.find key = none := by
  induction m with
  | nil => simp [find]
  | cons e rest ih =>
    have hrest : ∀ x ∈ rest, ¬ equiv x.1 key :=
      fun x hx => habs x (List.mem_cons_of_mem _ hx)
    by_cases h1 : Key.Compare e.1 key = true
    · simpa [find, h1] using ih hrest
    · by_cases h2 : Key.Compare key e.1 = true
      · simp [find, h1, h2]
      · exact absurd ⟨by simpa using h1, by simpa using h2⟩
          (habs e (List.mem_cons_self _ _))

theorem erase_of_absent (m : MyMap K V) (key : K)
    (habs : ∀ e ∈ m, ¬ equiv e.1 key) : m.erase key = (0, m) := by
  induction m with
  | nil => simp [erase]
  | cons e rest ih =>
    have hrest : ∀ x ∈ rest, ¬ equiv x.1 key :=
      fun x hx => habs x (List.mem_cons_of_mem _ hx)
    by_cases h1 : Key.Compare e.1 key = true
    · simp [erase, h1, ih hrest]
    · by_cases h2 : Key.Compare key e.1 = true
      · simp [erase, h1, h2]
      · exact absurd ⟨by simpa using h1, by simpa using h2⟩
          (habs e (List.mem_cons_self _ _))

end MyMap

namespace map

variable {K V : Type} [RangeKey K] [Inhabited V]

/-! ## Routing of the keyed operations -/

omit [Inhabited V] in
theorem key_int_lt (h : map K V) (key : K) (hN : 1 ≤ h.num_servers) :
    h.key_int key < h.num_servers := by
  unfold key_int
  exact lt_of_le_of_lt (Nat.mod_le _ _) (Nat.mod_lt _ hN)

theorem Put_eq (h : map K V) (c : Cluster (MyMap K V)) (key : K) (data : V)
    (hN : 1 ≤ h.num_servers) (hS : c.server_list = h.num_servers) :
    h.Put c key data = .ok (true, c.set (h.key_int key)
      ((c.shard (h.key_int key)).insert_or_assign key data)) := by
  have hi : h.key_int key < c.server_list := hS ▸ key_int_lt h key hN
  unfold Put
  split_ifs with hc
  · simp only [Bool.and_eq_true, decide_eq_true_eq] at hc
    rw [← hc.1]
    rfl
  · exact call_Put _ c _ key data hi

theorem Get_eq (h : map K V) (c : Cluster (MyMap K V)) (key : K)
    (hN : 1 ≤ h.num_servers) (hS : c.server_list = h.num_servers) :
    h.Get c key = .ok ((LocalGet key (c.shard (h.key_int key))).1, c) := by
  have hi : h.key_int key < c.server_list := hS ▸ key_int_lt h key hN
  have h2 : ∀ m : MyMap K V, (LocalGet key m).2 = m := by
    intro m; unfold LocalGet; split <;> rfl
  unfold Get
  split_ifs with hc
  · simp only [Bool.and_eq_true, decide_eq_true_eq] at hc
    rw [← hc.1]
    simp [Cluster.run, h2, Cluster.set_self]
  · rw [call_Get _ c _ key hi, h2, Cluster.set_self]

theorem Erase_eq (h : map K V) (c : Cluster (MyMap K V)) (key : K)
    (hN : 1 ≤ h.num_servers) (hS : c.server_list = h.num_servers) :
    h.Erase c key = .ok ((LocalErase key (c.shard (h.key_int key))).1,
      c.set (h.key_int key) (LocalErase key (c.shard (h.key_int key))).2) := by
  have hi : h.key_int key < c.server_list := hS ▸ key_int_lt h key hN
  unfold Erase
  split_ifs with hc
  · simp only [Bool.and_eq_true, decide_eq_true_eq] at hc
    rw [← hc.1]
    rfl
  · exact call_Erase _ c _ key hi

end map

/-! ## Claims -/

open map in
/-- C2: from every cluster state whose routed shard is a well-formed store,
`Put(k, v)` returns `true`, the `Erase(k)` that follows returns
`(true, MappedType())` and the `Get(k)` after that returns
`(false, MappedType())`. -/
theorem map_put_erase_get {K V : Type} [RangeKey K] [StrictWeak K]
    [Inhabited V] (h : map K V) (c : Cluster (MyMap K V)) (key : K)
    (data : V) (hN : 1 ≤ h.num_servers)
    (hS : c.server_list = h.num_servers)
    (hsorted : (c.shard (h.key_int key)).Sorted) :
    ∃ c1 c2, h.Put c key data = .ok (true, c1) ∧
      h.Erase c1 key = .ok ((true, default), c2) ∧
      h.Get c2 key = .ok ((false, default), c2) := by
  refine ⟨c.set (h.key_int key)
      ((c.shard (h.key_int key)).insert_or_assign key data),
    (c.set (h.key_int key)
      ((c.shard (h.key_int key)).insert_or_assign key data)).set
        (h.key_int key)
        (((c.shard (h.key_int key)).insert_or_assign key data).erase key).2,
    Put_eq h c key data hN hS, ?_, ?_⟩
  · rw [Erase_eq h _ key hN (by rw [Cluster.set_server_list, hS]),
      Cluster.set_shard_same]
    simp [LocalErase, MyMap.erase_insert_or_assign]
  · rw [Get_eq h _ key hN (by simp [Cluster.set_server_list, hS])]
    simp only [Cluster.set_shard_same, LocalGet]
    rw [MyMap.find_erase _ key
      (MyMap.sorted_insert_or_assign _ key data hsorted)]

/-- C2 at a concrete input: the scenario `Put(9, "z"); Erase(9); Get(9)` with
the key `[9,9]` on two servers, shard 1 holding `[3,4]` and `[11,12]`. -/
theorem map_put_erase_get_witness :
    ∃ c1 c2,
      (map.mk true 0 2 true "t" : map Interval String).Put
        (Cluster.mk 2 (fun _ => [((⟨3, 4⟩ : Interval), "a"), (⟨11, 12⟩, "b")]))
        ⟨9, 9⟩ "z" = .ok (true, c1) ∧
      (map.mk true 0 2 true "t" : map Interval String).Erase c1 ⟨9, 9⟩
        = .ok ((true, default), c2) ∧
      (map.mk true 0 2 true "t" : map Interval String).Get c2 ⟨9, 9⟩
        = .ok ((false, default), c2) :=
  map_put_erase_get (map.mk true 0 2 true "t")
    (Cluster.mk 2 (fun _ => [((⟨3, 4⟩ : Interval), "a"), (⟨11, 12⟩, "b")]))
    ⟨9, 9⟩ "z" (by decide) rfl (by simp [MyMap.Sorted, Key.Compare])

/-- C3 as stated fails: on two servers with only `[5,9] → "b"` stored (on
shard 1), the key `[5,7]` is stored on no shard, yet `Get([5,7])` returns
`(true, "b")` and `Erase([5,7])` returns `(true, MappedType())` and empties
shard 1: the two keys are equivalent under `Compare`, which orders by lower
endpoint. -/
theorem map_miss_finds_equivalent_key :
    (∀ i, ∀ e ∈ (Cluster.mk 2 (fun i => if i = 1 then
        [((⟨5, 9⟩ : Interval), "b")] else [])).shard i,
      e.1 ≠ (⟨5, 7⟩ : Interval)) ∧
    (∃ c', (map.mk true 0 2 false "t" : map Interval String).Get
        (Cluster.mk 2 (fun i => if i = 1 then
          [((⟨5, 9⟩ : Interval), "b")] else [])) ⟨5, 7⟩
        = .ok ((true, "b"), c')) ∧
    (∃ c', (map.mk true 0 2 false "t" : map Interval String).Erase
        (Cluster.mk 2 (fun i => if i = 1 then
          [((⟨5, 9⟩ : Interval), "b")] else [])) ⟨5, 7⟩
        = .ok ((true, default), c') ∧
      c'.shard 1 = []) := by
  refine ⟨?_, ⟨_, rfl⟩, ⟨_, rfl, rfl⟩⟩
  intro i e he
  by_cases hi : i = 1
  · simp only [hi, if_true, List.mem_singleton] at he
    rw [he]
    decide
  · simp only [hi, if_false] at he
    exact absurd he (List.not_mem_nil _)

open map in
/-- C3 amended: in a cluster state where no shard holds an entry whose key
is equivalent to `k` under `Compare` (neither ordered before the other),
`Get(k)` and `Erase(k)` both return `(false, MappedType())` as an ordinary
result and give back the cluster state they started from. -/
theorem map_miss_is_a_result {K V : Type} [RangeKey K] [Inhabited V]
    (h : map K V) (c : Cluster (MyMap K V)) (key : K)
    (hN : 1 ≤ h.num_servers) (hS : c.server_list = h.num_servers)
    (habs : ∀ i, ∀ e ∈ c.shard i, ¬ equiv e.1 key) :
    h.Get c key = .ok ((false, default), c) ∧
      h.Erase c key = .ok ((false, default), c) := by
  constructor
  · rw [Get_eq h c key hN hS]
    simp [LocalGet, MyMap.find_of_absent _ key (habs _)]
  · rw [Erase_eq h c key hN hS]
    simp [LocalErase, MyMap.erase_of_absent _ key (habs _), Cluster.set_self]

/-- C3 amended at a concrete input: three servers that each hold `[0,10]`, and the
key `[5,7]`, looked up through the RPC path. -/
theorem map_miss_is_a_result_witness :
    (map.mk false 1 3 false "t" : map Interval String).Get
        (Cluster.mk 3 (fun _ => [((⟨0, 10⟩ : Interval), "p")])) ⟨5, 7⟩
        = .ok ((false, default),
            Cluster.mk 3 (fun _ => [((⟨0, 10⟩ : Interval), "p")])) ∧
      (map.mk false 1 3 false "t" : map Interval String).Erase
        (Cluster.mk 3 (fun _ => [((⟨0, 10⟩ : Interval), "p")])) ⟨5, 7⟩
        = .ok ((false, default),
            Cluster.mk 3 (fun _ => [((⟨0, 10⟩ : Interval), "p")])) :=
  map_miss_is_a_result (map.mk false 1 3 false "t")
    (Cluster.mk 3 (fun _ => [((⟨0, 10⟩ : Interval), "p")])) ⟨5, 7⟩
    (by decide) rfl (by simp [equiv, Key.Compare])


namespace map

variable {K V : Type} [RangeKey K] [Inhabited V]

/-! ## Fan-out -/

theorem fan_out_eq (h : map K V) (name : String) (args : List (MapObj K V))
    (c : Cluster (MyMap K V)) (f : Nat → List (K × V))
    (hcall : ∀ i, i < c.server_list →
      (RPC.call (funcs h.func_prefix) c i name args).bind MapObj.as_vector
        = .ok (f i, c))
    (todo : List Nat) (htodo : ∀ i ∈ todo, i % 2 ^ 16 < c.server_list)
    (final_values : List (K × V)) :
    fan_out h name args todo final_values c
      = .ok (final_values ++
          (todo.filter (fun i => i ≠ h.my_server)).flatMap
            (fun i => f (i % 2 ^ 16)), c) := by
  induction todo generalizing final_values with
  | nil => simp [fan_out]
  | cons i todo ih =>
    have hrest : ∀ j ∈ todo, j % 2 ^ 16 < c.server_list :=
      fun j hj => htodo j (List.mem_cons_of_mem _ hj)
    by_cases hi : i = h.my_server
    · simp [fan_out, hi, ih hrest]
    · have hc := hcall _ (htodo i (List.mem_cons_self _ _))
      rw [fan_out, if_pos hi, hc]
      simp only []
      rw [ih hrest, List.filter_cons_of_pos (by simpa using hi),
        List.flatMap_cons, List.append_assoc]

omit [RangeKey K] [Inhabited V] in
theorem range_mod_lt (n s : Nat) (hn : n ≤ s) :
    ∀ i ∈ List.range n, i % 2 ^ 16 < s := by
  intro i hi
  rw [List.mem_range] at hi
  exact lt_of_le_of_lt (Nat.mod_le _ _) (lt_of_lt_of_le hi hn)

theorem GetAllData_eq (h : map K V) (c : Cluster (MyMap K V))
    (hS : c.server_list = h.num_servers)
    (hmy : h.my_server < h.num_servers) :
    h.GetAllData c = .ok (c.shard h.my_server ++
      ((List.range h.num_servers).filter (fun i => i ≠ h.my_server)).flatMap
        (fun i => c.shard (i % 2 ^ 16)), c) := by
  have hfirst : h.GetAllDataInServer c = .ok (c.shard h.my_server, c) := by
    unfold GetAllDataInServer
    split_ifs
    · simp [Cluster.run, LocalGetAllDataInServer, Cluster.set_self]
    · exact call_GetAllData _ c _ (hS ▸ hmy)
  unfold GetAllData
  rw [hfirst]
  simp only [List.nil_append]
  exact fan_out_eq h _ [] c c.shard
    (fun i hi => call_GetAllData _ c i hi) _
    (range_mod_lt _ _ (le_of_eq hS.symm)) _

theorem Contains_eq (h : map K V) (c : Cluster (MyMap K V)) (key : K)
    (hS : c.server_list = h.num_servers)
    (hmy : h.my_server < h.num_servers) :
    h.Contains c key
      = .ok ((LocalContainsInServer key (c.shard h.my_server)).1 ++
      ((List.range h.num_servers).filter (fun i => i ≠ h.my_server)).flatMap
        (fun i => (LocalContainsInServer key (c.shard (i % 2 ^ 16))).1),
        c) := by
  have h2 : ∀ m : MyMap K V, (LocalContainsInServer key m).2 = m := by
    intro m
    unfold LocalContainsInServer
    simp only []
    split_ifs <;> rfl
  have hfirst : h.ContainsInServer c key
      = .ok ((LocalContainsInServer key (c.shard h.my_server)).1, c) := by
    unfold ContainsInServer
    split_ifs
    · simp [Cluster.run, h2, Cluster.set_self]
    · exact call_Contains _ c _ key (hS ▸ hmy)
  unfold Contains
  rw [hfirst]
  simp only [List.nil_append]
  exact fan_out_eq h _ [.key key] c
    (fun i => (LocalContainsInServer key (c.shard i)).1)
    (fun i hi => call_Contains _ c i key hi) _
    (range_mod_lt _ _ (le_of_eq hS.symm)) _

omit [RangeKey K] [Inhabited V] in
theorem flatMap_mod_eq (n : Nat) (hn : n ≤ 65536) (my : Nat)
    (f : Nat → List (K × V)) :
    ((List.range n).filter (fun i => i ≠ my)).flatMap
        (fun i => f (i % 2 ^ 16))
      = ((List.range n).filter (fun i => i ≠ my)).flatMap f := by
  have hall : ∀ l : List Nat, (∀ i ∈ l, i < 65536) →
      l.flatMap (fun i => f (i % 2 ^ 16)) = l.flatMap f := by
    intro l
    induction l with
    | nil => intro _; rfl
    | cons a l ih =>
      intro hl
      have ha : a % 2 ^ 16 = a :=
        Nat.mod_eq_of_lt (hl a (List.mem_cons_self _ _))
      rw [List.flatMap_cons, List.flatMap_cons, ha,
        ih (fun i hi => hl i (List.mem_cons_of_mem _ hi))]
  apply hall
  intro i hi
  have := (List.mem_filter.1 hi).1
  rw [List.mem_range] at this
  omega

omit [RangeKey K] [Inhabited V] in
theorem flatMap_own_first_zero (n : Nat) (hn : 1 ≤ n)
    (f : Nat → List (K × V)) :
    f 0 ++ ((List.range n).filter (fun i => i ≠ 0)).flatMap f
      = (List.range n).flatMap f := by
  obtain ⟨m, rfl⟩ : ∃ m, n = m + 1 := ⟨n - 1, by omega⟩
  rw [List.range_succ_eq_map]
  have hf : (List.map Nat.succ (List.range m)).filter (fun i => i ≠ 0)
      = List.map Nat.succ (List.range m) := by
    rw [List.filter_eq_self]
    intro a ha
    obtain ⟨b, _, rfl⟩ := List.mem_map.1 ha
    simp
  rw [List.filter_cons_of_neg (by simp), hf, List.flatMap_cons]

end map

namespace MyMap

variable {K V : Type} [Key K]

theorem insert_or_assign_perm (m : MyMap K V) (key : K) (data : V)
    (habs : ∀ e ∈ m, ¬ equiv e.1 key) :
    (m.insert_or_assign key data).Perm ((key, data) :: m) := by
  induction m with
  | nil => simp [insert_or_assign]
  | cons e rest ih =>
    have hrest : ∀ x ∈ rest, ¬ equiv x.1 key :=
      fun x hx => habs x (List.mem_cons_of_mem _ hx)
    cases h1 : Key.Compare e.1 key with
    | true =>
      simp only [insert_or_assign, h1, if_true]
      exact ((ih hrest).cons e).trans (List.Perm.swap _ _ _)
    | false =>
      cases h2 : Key.Compare key e.1 with
      | true =>
        simp only [insert_or_assign, h1, h2, if_true, Bool.false_eq_true,
          if_false]
        exact List.Perm.refl _
      | false => exact absurd ⟨h1, h2⟩ (habs e (List.mem_cons_self _ _))

end MyMap

namespace map

variable {K V : Type} [RangeKey K] [Inhabited V]

omit [RangeKey K] [Inhabited V] in
theorem own_first_perm (n j : Nat) (hj : j < n) (f : Nat → List (K × V)) :
    ((List.range n).flatMap f).Perm
      (f j ++ ((List.range n).filter (fun i => i ≠ j)).flatMap f) := by
  have hmem : j ∈ List.range n := List.mem_range.2 hj
  have hp := List.perm_cons_erase hmem
  rw [List.Nodup.erase_eq_filter (List.nodup_range n) j] at hp
  have hfil : (List.range n).filter (fun i => i != j)
      = (List.range n).filter (fun i => i ≠ j) := by
    apply List.filter_congr
    intro x _
    by_cases hx : x = j <;> simp [hx]
  rw [hfil] at hp
  have := List.Perm.flatMap_right f hp
  rwa [List.flatMap_cons] at this

omit [RangeKey K] [Inhabited V] in
theorem flatMap_set_other (c : Cluster (MyMap K V)) (j : Nat)
    (s : MyMap K V) (l : List Nat) :
    (l.filter (fun i => i ≠ j)).flatMap (c.set j s).shard
      = (l.filter (fun i => i ≠ j)).flatMap c.shard := by
  induction l with
  | nil => rfl
  | cons a l ih =>
    by_cases ha : a = j
    · rw [List.filter_cons_of_neg (by simpa using ha)]
      exact ih
    · rw [List.filter_cons_of_pos (by simpa using ha), List.flatMap_cons,
        List.flatMap_cons, ih, Cluster.set_shard_other c j a s ha]

omit [Inhabited V] in
theorem total_set_perm (c : Cluster (MyMap K V)) (n j : Nat) (hj : j < n)
    (key : K) (data : V)
    (habs : ∀ e ∈ c.shard j, ¬ equiv e.1 key) :
    ((List.range n).flatMap
        (c.set j ((c.shard j).insert_or_assign key data)).shard).Perm
      ((key, data) :: (List.range n).flatMap c.shard) := by
  refine (own_first_perm n j hj _).trans ?_
  rw [flatMap_set_other, Cluster.set_shard_same]
  refine List.Perm.trans
    (List.Perm.append_right _
      (MyMap.insert_or_assign_perm (c.shard j) key data habs)) ?_
  rw [List.cons_append]
  exact List.Perm.cons _ (own_first_perm n j hj c.shard).symm

theorem PutAll_total (h : map K V) (hN : 1 ≤ h.num_servers)
    (kvs : List (K × V))
    (hpw : kvs.Pairwise (fun a b => ¬ equiv a.1 b.1))
    (c : Cluster (MyMap K V)) (hS : c.server_list = h.num_servers)
    (hfresh : ∀ i, ∀ e ∈ c.shard i, ∀ kv ∈ kvs, ¬ equiv e.1 kv.1) :
    ∃ c', h.PutAll kvs c = .ok c' ∧ c'.server_list = h.num_servers ∧
      ((List.range h.num_servers).flatMap c'.shard).Perm
        (kvs ++ (List.range h.num_servers).flatMap c.shard) := by
  induction kvs generalizing c with
  | nil => exact ⟨c, rfl, hS, List.Perm.refl _⟩
  | cons kv rest ih =>
    obtain ⟨key, data⟩ := kv
    rw [List.pairwise_cons] at hpw
    obtain ⟨hk, hrest⟩ := hpw
    have hj := key_int_lt h key hN
    have hfresh1 : ∀ i, ∀ e ∈ (c.set (h.key_int key)
        ((c.shard (h.key_int key)).insert_or_assign key data)).shard i,
        ∀ kv ∈ rest, ¬ equiv e.1 kv.1 := by
      intro i e he kv hkv
      by_cases hi : i = h.key_int key
      · rw [hi, Cluster.set_shard_same] at he
        rcases MyMap.mem_insert_or_assign _ key data e he with h1 | ⟨y, hy, h1⟩
        · rw [h1]; exact hk kv hkv
        · rw [h1]; exact hfresh _ y hy kv (List.mem_cons_of_mem _ hkv)
      · rw [Cluster.set_shard_other _ _ _ _ hi] at he
        exact hfresh i e he kv (List.mem_cons_of_mem _ hkv)
    obtain ⟨c', hc', hS', hperm⟩ := ih hrest _
      (by rw [Cluster.set_server_list, hS]) hfresh1
    refine ⟨c', ?_, hS', ?_⟩
    · rw [PutAll, Put_eq h c key data hN hS]
      exact hc'
    · refine hperm.trans ?_
      refine (List.Perm.append_left rest
        (total_set_perm c _ _ hj key data
          (fun e he => hfresh _ e he (key, data)
            (List.mem_cons_self _ _)))).trans ?_
      exact List.perm_middle

end map

/-- C4 as stated fails: on one server, `Put([5,7], "a")` and then
`Put([5,9], "b")` into empty shards, two distinct keys, leave one entry and
`GetAllData()` returns `([5,7], "b")` alone, which is neither of the
inserted pairs: the second key is equivalent to the first under `Compare`,
so `insert_or_assign` keeps the stored key and replaces the value. -/
theorem map_get_all_data_merges_equivalent_keys :
    (⟨5, 7⟩ : Interval) ≠ ⟨5, 9⟩ ∧
    ∃ c, (map.mk true 0 1 true "t" : map Interval String).PutAll
        [(⟨5, 7⟩, "a"), (⟨5, 9⟩, "b")] (Cluster.mk 1 (fun _ => []))
        = .ok c ∧
      (∃ c', (map.mk true 0 1 true "t" : map Interval String).GetAllData c
        = .ok ([(⟨5, 7⟩, "b")], c')) ∧
      ((⟨5, 7⟩ : Interval), "a") ∉ [((⟨5, 7⟩ : Interval), "b")] ∧
      ((⟨5, 9⟩ : Interval), "b") ∉ [((⟨5, 7⟩ : Interval), "b")] :=
  ⟨by decide, _, rfl, ⟨_, rfl⟩, by decide, by decide⟩

open map in
/-- C4 amended: with `1 ≤ N ≤ 65536` servers and a handle with
`my_server < N`, after `Put` of pairs no two of whose keys are equivalent
under `Compare` into empty shards, every `Put` succeeds and `GetAllData()`
returns a rearrangement of the inserted pairs: each inserted pair once, and
nothing else. -/
theorem map_get_all_data_complete {K V : Type} [RangeKey K] [Inhabited V]
    (h : map K V) (c : Cluster (MyMap K V)) (kvs : List (K × V))
    (hN : 1 ≤ h.num_servers) (hN16 : h.num_servers ≤ 65536)
    (hmy : h.my_server < h.num_servers)
    (hS : c.server_list = h.num_servers)
    (hempty : ∀ i, c.shard i = [])
    (hpw : kvs.Pairwise (fun a b => ¬ equiv a.1 b.1)) :
    ∃ c' r, h.PutAll kvs c = .ok c' ∧ h.GetAllData c' = .ok (r, c') ∧
      r.Perm kvs := by
  obtain ⟨c', hc', hS', hperm⟩ := PutAll_total h hN kvs hpw c hS
    (by intro i e he; rw [hempty i] at he; exact absurd he (List.not_mem_nil _))
  refine ⟨c', _, hc', GetAllData_eq h c' hS' hmy, ?_⟩
  rw [flatMap_mod_eq _ hN16]
  refine (own_first_perm _ _ hmy c'.shard).symm.trans (hperm.trans ?_)
  have hnil : (List.range h.num_servers).flatMap c.shard = [] := by
    induction (List.range h.num_servers) with
    | nil => rfl
    | cons a l ih => rw [List.flatMap_cons, hempty a, ih]; rfl
  rw [hnil, List.append_nil]

/-- C4 amended at a concrete input: three servers, a handle of server 1, and the
inserts `[1,1] → "a"`, `[2,2] → "b"`, `[3,3] → "c"`, `[4,9] → "d"`. -/
theorem map_get_all_data_complete_witness :
    ∃ c' r,
      (map.mk true 1 3 true "t" : map Interval String).PutAll
        [(⟨1, 1⟩, "a"), (⟨2, 2⟩, "b"), (⟨3, 3⟩, "c"), (⟨4, 9⟩, "d")]
        (Cluster.mk 3 (fun _ => [])) = .ok c' ∧
      (map.mk true 1 3 true "t" : map Interval String).GetAllData c'
        = .ok (r, c') ∧
      r.Perm [(⟨1, 1⟩, "a"), (⟨2, 2⟩, "b"), (⟨3, 3⟩, "c"), (⟨4, 9⟩, "d")] :=
  map_get_all_data_complete (map.mk true 1 3 true "t")
    (Cluster.mk 3 (fun _ => []))
    [(⟨1, 1⟩, "a"), (⟨2, 2⟩, "b"), (⟨3, 3⟩, "c"), (⟨4, 9⟩, "d")]
    (by decide) (by decide) (by decide) rfl (fun _ => rfl)
    (by simp [equiv, Key.Compare])


/-- C5 as stated fails: on two servers, with `[0,10] → "p"` on shard 0 and
`[21,30] → "q"` on shard 1, the handle of server 1 gets shard 1's entry
first from `GetAllData()` and from `Contains([0,30])`, which is not the
concatenation of shard 0's result and then shard 1's. -/
theorem map_fan_out_not_ascending :
    (∃ c', (map.mk true 1 2 true "t" : map Interval String).GetAllData
        (Cluster.mk 2 (fun i => if i = 0 then [(⟨0, 10⟩, "p")]
          else [(⟨21, 30⟩, "q")]))
        = .ok ([(⟨21, 30⟩, "q"), (⟨0, 10⟩, "p")], c')) ∧
    (∃ c', (map.mk true 1 2 true "t" : map Interval String).Contains
        (Cluster.mk 2 (fun i => if i = 0 then [(⟨0, 10⟩, "p")]
          else [(⟨21, 30⟩, "q")])) ⟨0, 30⟩
        = .ok ([(⟨21, 30⟩, "q"), (⟨0, 10⟩, "p")], c')) ∧
    [((⟨21, 30⟩ : Interval), "q"), (⟨0, 10⟩, "p")]
      ≠ (List.range 2).flatMap (fun i => if i = 0 then [(⟨0, 10⟩, "p")]
          else [(⟨21, 30⟩, "q")]) ∧
    [((⟨21, 30⟩ : Interval), "q"), (⟨0, 10⟩, "p")]
      ≠ (List.range 2).flatMap (fun i =>
          (map.LocalContainsInServer (⟨0, 30⟩ : Interval)
            (if i = 0 then [(⟨0, 10⟩, "p")] else [(⟨21, 30⟩, "q")])).1) := by
  refine ⟨⟨_, rfl⟩, ⟨_, rfl⟩, by decide, by decide⟩

open map in
/-- C5 amended: for a handle with `my_server < N`, `GetAllData()` and
`Contains(k)` return the local result of shard `my_server` first and then,
for every other `i` below `N` in ascending order, the local result of the
shard that `rpc->call(i, ...)` addresses (shard `i mod 2^16`), and no shard
is changed. For `my_server = 0` and `N ≤ 65536` this is the concatenation
of the local results in ascending shard order. -/
theorem map_fan_out_own_shard_first {K V : Type} [RangeKey K] [Inhabited V]
    (h : map K V) (c : Cluster (MyMap K V)) (key : K)
    (hS : c.server_list = h.num_servers)
    (hmy : h.my_server < h.num_servers) :
    h.GetAllData c = .ok (c.shard h.my_server ++
      ((List.range h.num_servers).filter (fun i => i ≠ h.my_server)).flatMap
        (fun i => c.shard (i % 2 ^ 16)), c) ∧
    h.Contains c key
      = .ok ((LocalContainsInServer key (c.shard h.my_server)).1 ++
      ((List.range h.num_servers).filter (fun i => i ≠ h.my_server)).flatMap
        (fun i => (LocalContainsInServer key (c.shard (i % 2 ^ 16))).1),
        c) ∧
    (h.my_server = 0 → h.num_servers ≤ 65536 →
      h.GetAllData c = .ok ((List.range h.num_servers).flatMap c.shard, c) ∧
      h.Contains c key = .ok ((List.range h.num_servers).flatMap
        (fun i => (LocalContainsInServer key (c.shard i)).1), c)) := by
  refine ⟨GetAllData_eq h c hS hmy, Contains_eq h c key hS hmy, ?_⟩
  intro h0 h16
  rw [GetAllData_eq h c hS hmy, Contains_eq h c key hS hmy,
    flatMap_mod_eq _ h16, flatMap_mod_eq _ h16 _
      (fun i => (LocalContainsInServer key (c.shard i)).1), h0,
    flatMap_own_first_zero _ (by omega),
    flatMap_own_first_zero _ (by omega)
      (fun i => (LocalContainsInServer key (c.shard i)).1)]
  exact ⟨rfl, rfl⟩

/-- C5 amended at a concrete input: the two-server state of the
counterexample, read through the handle of server 0 over RPC. -/
theorem map_fan_out_own_shard_first_witness :
    (map.mk false 0 2 false "t" : map Interval String).GetAllData
        (Cluster.mk 2 (fun i => if i = 0 then [(⟨0, 10⟩, "p")]
          else [(⟨21, 30⟩, "q")]))
      = .ok ([(⟨0, 10⟩, "p"), (⟨21, 30⟩, "q")],
          Cluster.mk 2 (fun i => if i = 0 then [(⟨0, 10⟩, "p")]
            else [(⟨21, 30⟩, "q")])) :=
  ((map_fan_out_own_shard_first (map.mk false 0 2 false "t")
    (Cluster.mk 2 (fun i => if i = 0 then [(⟨0, 10⟩, "p")]
      else [(⟨21, 30⟩, "q")])) (⟨0, 30⟩ : Interval) rfl (by decide)).2.2
    rfl (by decide)).1


/-! ## The remote branches of the priority queues -/

namespace priority_queue

variable {V : Type} [Prio V] [Inhabited V]

theorem call_Push_one (p : String) (c : Cluster (Queue V)) (i : Nat)
    (data : V) (hi : i < c.server_list) :
    RPC.call (funcs p) c i (p ++ "_Push") [QueueObj.data data]
      = .error .wrong_arity := by
  simp [RPC.call, funcs, hi, List.find?, append_beq]

theorem call_Pop_none (p : String) (c : Cluster (Queue V)) (i : Nat)
    (hi : i < c.server_list) :
    RPC.call (funcs (V := V) p) c i (p ++ "_Pop") []
      = .error .wrong_arity := by
  simp [RPC.call, funcs, hi, List.find?, append_beq]

theorem call_Size_none (p : String) (c : Cluster (Queue V)) (i : Nat)
    (hi : i < c.server_list) :
    RPC.call (funcs (V := V) p) c i (p ++ "_Size") []
      = .error .wrong_arity := by
  simp [RPC.call, funcs, hi, List.find?, append_beq]

end priority_queue

namespace DistributedPriorityQueue

variable {V : Type} [Prio V] [Inhabited V]

theorem forward_Push_one (h : DistributedPriorityQueue V) (depth : Nat)
    (c : Cluster (Queue V)) (i : Nat) (data : V) (hi : i < c.server_list) :
    RPC.call (funcs h depth) c i (h.func_prefix ++ "_Push")
        [QueueObj.data data]
      = .error .wrong_arity := by
  cases depth <;> simp [RPC.call, funcs, hi, List.find?, append_beq]

theorem forward_Pop_none (h : DistributedPriorityQueue V) (depth : Nat)
    (c : Cluster (Queue V)) (i : Nat) (hi : i < c.server_list) :
    RPC.call (funcs h depth) c i (h.func_prefix ++ "_Pop") []
      = .error .wrong_arity := by
  cases depth <;> simp [RPC.call, funcs, hi, List.find?, append_beq]

end DistributedPriorityQueue

/-- C6 on the code: when shard `s` is not served by the handle's fast path
(`s ≠ my_server` or `server_on_node` off; for `DistributedPriorityQueue`
`s ≠ my_server`), `Push(v, s)` sends `_Push` one argument and `Pop(s)` sends
`_Pop` none, the handlers take two and one, and both calls are rejected with
`wrong_arity`: nothing is pushed and nothing comes back. -/
theorem priority_queue_remote_push_pop_rejected {V : Type} [Prio V]
    [Inhabited V] (h : priority_queue V) (d : DistributedPriorityQueue V)
    (depth : Nat) (c : Cluster (Queue V)) (data : V) (s : Nat)
    (hs : s < c.server_list)
    (hremote : ¬ (s = h.my_server ∧ h.server_on_node = true))
    (hother : s ≠ d.my_server) :
    h.Push c data s = .error .wrong_arity ∧
    h.Pop c s = .error .wrong_arity ∧
    d.Push depth c data s = .error .wrong_arity ∧
    d.Pop depth c s = .error .wrong_arity := by
  have hc : (decide (s = h.my_server) && h.server_on_node) = false := by
    simpa using hremote
  refine ⟨?_, ?_, ?_, ?_⟩
  · simp only [priority_queue.Push, hc, Bool.false_eq_true, if_false,
      priority_queue.call_Push_one _ c s data hs]
    rfl
  · simp only [priority_queue.Pop, hc, Bool.false_eq_true, if_false,
      priority_queue.call_Pop_none _ c s hs]
    rfl
  · simp only [DistributedPriorityQueue.Push,
      DistributedPriorityQueue.PushOver, hother, if_false,
      DistributedPriorityQueue.forward_Push_one d depth c s data hs]
    rfl
  · simp only [DistributedPriorityQueue.Pop,
      DistributedPriorityQueue.PopOver, hother, if_false,
      DistributedPriorityQueue.forward_Pop_none d depth c s hs]
    rfl

/-- C6 on the code at the scenario's input, issued by server 1: `Push(3, 0)`
on two servers with empty shards is rejected. -/
theorem priority_queue_remote_push_pop_rejected_witness :
    (priority_queue.mk true 1 2 true "q" : priority_queue Int).Push
        (Cluster.mk 2 (fun _ => [])) 3 0 = .error .wrong_arity ∧
    (priority_queue.mk true 1 2 true "q" : priority_queue Int).Pop
        (Cluster.mk 2 (fun _ => [])) 0 = .error .wrong_arity ∧
    (DistributedPriorityQueue.mk true 1 2 "q" :
        DistributedPriorityQueue Int).Push 2
        (Cluster.mk 2 (fun _ => [])) 3 0 = .error .wrong_arity ∧
    (DistributedPriorityQueue.mk true 1 2 "q" :
        DistributedPriorityQueue Int).Pop 2
        (Cluster.mk 2 (fun _ => [])) 0 = .error .wrong_arity :=
  priority_queue_remote_push_pop_rejected
    (priority_queue.mk true 1 2 true "q")
    (DistributedPriorityQueue.mk true 1 2 "q") 2
    (Cluster.mk 2 (fun _ => [])) 3 0 (by decide) (by decide) (by decide)

/-- C7 on the code: with every shard empty, the handle of server 1 gets
`wrong_arity` from `Pop(0)` and from `Top(0)`, in both priority-queue
classes, and not the pair `(false, MappedType())`. -/
theorem priority_queue_remote_empty_pop_top :
    (priority_queue.mk true 1 2 true "q" : priority_queue Int).Pop
        (Cluster.mk 2 (fun _ => [])) 0 = .error .wrong_arity ∧
    (priority_queue.mk true 1 2 true "q" : priority_queue Int).Top
        (Cluster.mk 2 (fun _ => [])) 0 = .error .wrong_arity ∧
    (DistributedPriorityQueue.mk true 1 2 "q" :
        DistributedPriorityQueue Int).Pop 2
        (Cluster.mk 2 (fun _ => [])) 0 = .error .wrong_arity ∧
    (DistributedPriorityQueue.mk true 1 2 "q" :
        DistributedPriorityQueue Int).Top 2
        (Cluster.mk 2 (fun _ => [])) 0 = .error .wrong_arity :=
  ⟨rfl, rfl, rfl, rfl⟩

/-- C8 on the code: with `3, 2, 1` on shard 0, the handle of server 1 gets
`wrong_arity` from `Top(0)`, not `(true, 3)`: its RPC names `_Pop` and
carries no argument. The handler it names is the popping one: called with
the shard id it returns `(true, 3)` and leaves `2, 1` on shard 0. -/
theorem priority_queue_remote_top_calls_pop :
    (priority_queue.mk true 1 2 true "q" : priority_queue Int).Top
        (Cluster.mk 2 (fun i => if i = 0 then [3, 2, 1] else [])) 0
      = .error .wrong_arity ∧
    (DistributedPriorityQueue.mk true 1 2 "q" :
        DistributedPriorityQueue Int).Top 2
        (Cluster.mk 2 (fun i => if i = 0 then [3, 2, 1] else [])) 0
      = .error .wrong_arity ∧
    (∃ c', RPC.call (priority_queue.funcs "q")
        (Cluster.mk 2 (fun i => if i = 0 then [(3 : Int), 2, 1] else [])) 0
        ("q" ++ "_Pop") [QueueObj.index 0]
          = .ok (QueueObj.found (true, 3), c') ∧
        c'.shard 0 = [2, 1]) :=
  ⟨rfl, rfl, _, rfl, rfl⟩


/-! ## The fast path of `basket::priority_queue` -/

namespace Queue

variable {V : Type} [Prio V]

theorem push_perm (queue : Queue V) (data : V) :
    (queue.push data).Perm (data :: queue) := by
  induction queue with
  | nil => simp [push]
  | cons e rest ih =>
    cases h1 : Prio.Compare e data with
    | true => simp [push, h1]
    | false =>
      simp only [push, h1, Bool.false_eq_true, if_false]
      exact (ih.cons e).trans (List.Perm.swap _ _ _)

theorem push_sorted [PrioOrder V] (queue : Queue V) (data : V)
    (hq : queue.Pairwise (fun a b => Prio.Compare a b = false)) :
    (queue.push data).Pairwise (fun a b => Prio.Compare a b = false) := by
  induction queue with
  | nil => simp [push]
  | cons e rest ih =>
    rw [List.pairwise_cons] at hq
    obtain ⟨he, hrest⟩ := hq
    cases h1 : Prio.Compare e data with
    | true =>
      simp only [push, h1, if_true]
      rw [List.pairwise_cons, List.pairwise_cons]
      refine ⟨?_, he, hrest⟩
      intro x hx
      rcases List.mem_cons.1 hx with hx | hx
      · rw [hx]; exact PrioOrder.asymm _ _ h1
      · by_contra hc
        simp only [Bool.not_eq_false] at hc
        have := PrioOrder.trans _ _ _ h1 hc
        rw [he x hx] at this
        exact Bool.noConfusion this
    | false =>
      simp only [push, h1, Bool.false_eq_true, if_false]
      rw [List.pairwise_cons]
      refine ⟨?_, ih hrest⟩
      intro x hx
      rcases List.mem_cons.1 ((push_perm rest data).subset hx) with hx | hx
      · rw [hx]; exact h1
      · exact he x hx

theorem foldl_push_perm (vs : List V) (queue : Queue V) :
    (vs.foldl (fun q v => push v q) queue).Perm (vs ++ queue) := by
  induction vs generalizing queue with
  | nil => exact List.Perm.refl _
  | cons v vs ih =>
    rw [List.foldl_cons]
    refine (ih _).trans ?_
    refine (List.Perm.append_left vs (push_perm queue v)).trans ?_
    exact List.perm_middle

theorem foldl_push_sorted [PrioOrder V] (vs : List V) (queue : Queue V)
    (hq : queue.Pairwise (fun a b => Prio.Compare a b = false)) :
    (vs.foldl (fun q v => push v q) queue).Pairwise
      (fun a b => Prio.Compare a b = false) := by
  induction vs generalizing queue with
  | nil => exact hq
  | cons v vs ih =>
    rw [List.foldl_cons]
    exact ih _ (push_sorted queue v hq)

end Queue

namespace priority_queue

variable {V : Type} [Prio V] [Inhabited V]

theorem PushAll_local (h : priority_queue V) (hon : h.server_on_node = true)
    (vs : List V) (c : Cluster (Queue V)) :
    h.PushAll h.my_server vs c = .ok (c.set h.my_server
      (vs.foldl (fun q v => Queue.push v q) (c.shard h.my_server))) := by
  induction vs generalizing c with
  | nil => rw [PushAll, List.foldl_nil, Cluster.set_self]
  | cons v vs ih =>
    rw [PushAll]
    simp only [Push, hon, decide_True, Bool.and_self, if_true]
    rw [ih]
    simp [Cluster.run, LocalPush, Cluster.set, Function.update_idem]

theorem PopN_local (h : priority_queue V) (hon : h.server_on_node = true)
    (queue : Queue V) (c : Cluster (Queue V))
    (hc : c.shard h.my_server = queue) :
    h.PopN h.my_server (queue.length + 1) c
      = .ok (queue.map (fun x => (true, x)) ++ [(false, default)],
          c.set h.my_server []) := by
  induction queue generalizing c with
  | nil =>
    simp [PopN, Pop, hon, Cluster.run, LocalPop, hc, Queue.size]
  | cons e rest ih =>
    rw [List.length_cons, PopN]
    simp only [Pop, hon, decide_True, Bool.and_self, if_true, Cluster.run,
      LocalPop, hc, Queue.size, Queue.top, Queue.pop, List.length_cons,
      List.head?_cons, List.tail_cons, Nat.succ_pos, gt_iff_lt, if_true]
    rw [ih _ (Cluster.set_shard_same _ _ _)]
    simp [Cluster.set, Function.update_idem]

/-- Priority-queue order on the fast path: values pushed to the handle's own
empty shard come back from `Pop` greatest first, each once, and the next
`Pop` returns `(false, MappedType())`. -/
theorem local_order [PrioOrder V] (h : priority_queue V)
    (c : Cluster (Queue V)) (vs : List V)
    (hon : h.server_on_node = true) (hempty : c.shard h.my_server = []) :
    ∃ (c1 c2 : Cluster (Queue V)) (out : List V),
      h.PushAll h.my_server vs c = .ok c1 ∧
      h.PopN h.my_server (vs.length + 1) c1
        = .ok (out.map (fun x => (true, x)) ++ [(false, default)], c2) ∧
      out.Perm vs ∧ out.Pairwise (fun a b => Prio.Compare a b = false) ∧
      c2.shard h.my_server = [] := by
  have hperm := Queue.foldl_push_perm vs (c.shard h.my_server)
  rw [hempty, List.append_nil] at hperm
  refine ⟨c.set h.my_server
      (vs.foldl (fun q v => Queue.push v q) (c.shard h.my_server)),
    (c.set h.my_server
      (vs.foldl (fun q v => Queue.push v q) (c.shard h.my_server))).set
        h.my_server [],
    vs.foldl (fun q v => Queue.push v q) [],
    PushAll_local h hon vs c, ?_, hperm, ?_, Cluster.set_shard_same _ _ _⟩
  · rw [← hperm.length_eq, hempty]
    exact PopN_local h hon _ _ (Cluster.set_shard_same _ _ _)
  · exact Queue.foldl_push_sorted vs [] List.Pairwise.nil

/-- The scenario `Push 3, 1, 2` on shard 0 by server 0, then four `Pop`. -/
theorem local_order_scenario :
    ∃ c1 c2, (priority_queue.mk true 0 2 true "q" : priority_queue Int).PushAll
        0 [3, 1, 2] (Cluster.mk 2 (fun _ => [])) = .ok c1 ∧
      (priority_queue.mk true 0 2 true "q" : priority_queue Int).PopN 0 4 c1
        = .ok ([(true, 3), (true, 2), (true, 1), (false, default)], c2) :=
  ⟨_, _, rfl, rfl⟩

/-- On the fast path `Pop` and `Top` of an empty shard return
`(false, MappedType())` and `Top` of a non-empty shard returns its first
element; `Top` gives back the cluster state it started from. -/
theorem local_top_reads (h : priority_queue V) (c : Cluster (Queue V))
    (hon : h.server_on_node = true) :
    (c.shard h.my_server = [] →
      h.Pop c h.my_server = .ok ((false, default), c) ∧
      h.Top c h.my_server = .ok ((false, default), c)) ∧
    (∀ v rest, c.shard h.my_server = v :: rest →
      h.Top c h.my_server = .ok ((true, v), c)) := by
  refine ⟨fun he => ⟨?_, ?_⟩, fun v rest he => ?_⟩
  · simp only [Pop, hon, decide_True, Bool.and_self, if_true, Cluster.run,
      LocalPop, he, Queue.size, List.length_nil, gt_iff_lt, lt_self_iff_false,
      if_false]
    rw [← he, Cluster.set_self]
  · simp only [Top, hon, decide_True, Bool.and_self, if_true, Cluster.run,
      LocalTop, he, Queue.size, List.length_nil, gt_iff_lt, lt_self_iff_false,
      if_false]
    rw [← he, Cluster.set_self]
  · simp only [Top, hon, decide_True, Bool.and_self, if_true, Cluster.run,
      LocalTop, he, Queue.size, Queue.top, List.length_cons, List.head?_cons,
      Nat.succ_pos, gt_iff_lt, if_true]
    rw [← he, Cluster.set_self]

end priority_queue


/-! ## Range-contains -/

namespace map

variable {K V : Type} [RangeKey K]

theorem scan_sound (key : K) (l : List (K × V)) :
    ∀ e ∈ scan key l,
      RangeKey.Contains e.1 key = true ∨ RangeKey.Contains key e.1 = true := by
  induction l with
  | nil => intro e he; simp [scan] at he
  | cons a rest ih =>
    intro e he
    cases h1 : (RangeKey.Contains key a.1 || RangeKey.Contains a.1 key) with
    | false => simp [scan, h1] at he
    | true =>
      simp only [scan, h1, Bool.not_true, Bool.false_eq_true, if_false,
        List.mem_cons] at he
      rcases he with he | he
      · rw [he]
        rcases Bool.or_eq_true_iff.1 h1 with h | h
        · exact Or.inr h
        · exact Or.inl h
      · exact ih e he

/-- A store that does not hold exactly one entry: every entry
`LocalContainsInServer(k)` emits has a key that contains `k` or is contained
by `k`. -/
theorem LocalContainsInServer_sound (key : K) (mymap : MyMap K V)
    (hsize : mymap.length ≠ 1) :
    ∀ e ∈ (LocalContainsInServer key mymap).1,
      RangeKey.Contains e.1 key = true ∨ RangeKey.Contains key e.1 = true := by
  intro e he
  unfold LocalContainsInServer at he
  simp only [hsize, if_false] at he
  split_ifs at he
  all_goals first
    | exact scan_sound key _ e he
    | exact absurd he (List.not_mem_nil _)

/-- A store that holds exactly one entry: `LocalContainsInServer(k)` emits
that entry, whatever `k` is. -/
theorem LocalContainsInServer_singleton (key : K) (e : K × V) :
    (LocalContainsInServer key [e]).1 = [e] := rfl

end map

/-- C9 on the code: on the shard that holds only `[20,30] → "q"`,
`LocalContainsInServer([5,7])` emits `([20,30], "q")`, although `[20,30]`
does not contain `[5,7]` and `[5,7]` does not contain `[20,30]`. -/
theorem local_contains_emits_unrelated_sole_entry :
    (map.LocalContainsInServer (⟨5, 7⟩ : Interval)
        [((⟨20, 30⟩ : Interval), "q")]).1 = [(⟨20, 30⟩, "q")] ∧
    RangeKey.Contains (⟨20, 30⟩ : Interval) ⟨5, 7⟩ = false ∧
    RangeKey.Contains (⟨5, 7⟩ : Interval) ⟨20, 30⟩ = false := by
  decide

/-- C10 as stated fails: on one server, after `Put([0,10], "p")` and
`Put([20,30], "q")`, shard 0 holds the two entries in that order,
`Contains([0,25])` returns `([0,10], "p")` alone and `Contains([5,7])`
returns nothing. -/
theorem map_range_contains_scenario_differs :
    ∃ c, (map.mk true 0 1 true "t" : map Interval String).PutAll
        [(⟨0, 10⟩, "p"), (⟨20, 30⟩, "q")] (Cluster.mk 1 (fun _ => []))
        = .ok c ∧
      c.shard 0 = [(⟨0, 10⟩, "p"), (⟨20, 30⟩, "q")] ∧
      (map.mk true 0 1 true "t" : map Interval String).Contains c ⟨0, 25⟩
        = .ok ([(⟨0, 10⟩, "p")], c) ∧
      [((⟨0, 10⟩ : Interval), "p")] ≠ [(⟨0, 10⟩, "p"), (⟨20, 30⟩, "q")] ∧
      (map.mk true 0 1 true "t" : map Interval String).Contains c ⟨5, 7⟩
        = .ok ([], c) := by
  refine ⟨_, rfl, rfl, ?_, by decide, ?_⟩
  · rw [map.Contains_eq _ _ _ rfl (by decide)]
    rfl
  · rw [map.Contains_eq _ _ _ rfl (by decide)]
    rfl

/-- C10 amended: on one server, after `Put([0,10], "p")` and
`Put([20,30], "q")`, with intervals ordered by lower endpoint and `Contains`
interval inclusion, the local scan for `[0,25]` and `Contains([0,25])` return
exactly `([0,10], "p")`, on the fast path and over RPC alike, and the store
is left as it was. -/
theorem map_range_contains_scenario (server_on_node : Bool) :
    ∃ c, (map.mk true 0 1 server_on_node "t" : map Interval String).PutAll
        [(⟨0, 10⟩, "p"), (⟨20, 30⟩, "q")] (Cluster.mk 1 (fun _ => []))
        = .ok c ∧
      c.shard 0 = [(⟨0, 10⟩, "p"), (⟨20, 30⟩, "q")] ∧
      (map.LocalContainsInServer (⟨0, 25⟩ : Interval) (c.shard 0)).1
        = [(⟨0, 10⟩, "p")] ∧
      (map.mk true 0 1 server_on_node "t" : map Interval String).Contains c
        ⟨0, 25⟩ = .ok ([(⟨0, 10⟩, "p")], c) := by
  cases server_on_node
  · refine ⟨_, rfl, rfl, rfl, ?_⟩
    rw [map.Contains_eq _ _ _ rfl (by decide)]
    rfl
  · refine ⟨_, rfl, rfl, rfl, ?_⟩
    rw [map.Contains_eq _ _ _ rfl (by decide)]
    rfl

/-! ## The predecessor step of the range scan -/

namespace map

variable {K V : Type} [RangeKey K]

/-- Where the scan of `LocalContainsInServer` starts in a store of at least
two entries whose lower bound for `key` exists and is not the first entry:
at the predecessor when `key.Contains(predecessor)`, else at the lower
bound. -/
theorem LocalContainsInServer_start (key : K) (mymap : MyMap K V)
    (pred : K × V) (hsize : 2 ≤ mymap.length)
    (hlb : mymap.lower_bound key < mymap.length)
    (hfirst : mymap.lower_bound key ≠ 0)
    (hpred : mymap.get? (mymap.lower_bound key - 1) = some pred) :
    (LocalContainsInServer key mymap).1
      = scan key (mymap.drop
          (if RangeKey.Contains key pred.1 then mymap.lower_bound key - 1
            else mymap.lower_bound key)) := by
  have h0 : mymap.length ≠ 0 := by omega
  have h1 : mymap.length ≠ 1 := by omega
  have h2 : mymap.lower_bound key ≠ mymap.length := by omega
  unfold LocalContainsInServer
  simp only [h0, h1, h2, hfirst, hpred, if_false, ne_eq, not_false_eq_true,
    if_true]
  cases RangeKey.Contains key pred.1 <;> simp

end map

/-- C11 on the code: in the store `[0,10] → "p"`, `[20,30] → "q"` the lower
bound of `[5,7]` is the second entry, its predecessor `[0,10]` contains
`[5,7]`, and `LocalContainsInServer([5,7])` returns nothing: the scan starts
at the lower bound and the predecessor's entry is not part of the result. -/
theorem local_contains_skips_containing_predecessor :
    MyMap.lower_bound [((⟨0, 10⟩ : Interval), "p"), (⟨20, 30⟩, "q")]
        ⟨5, 7⟩ = 1 ∧
    RangeKey.Contains (⟨0, 10⟩ : Interval) ⟨5, 7⟩ = true ∧
    RangeKey.Contains (⟨5, 7⟩ : Interval) ⟨0, 10⟩ = false ∧
    (map.LocalContainsInServer (⟨5, 7⟩ : Interval)
        [((⟨0, 10⟩ : Interval), "p"), (⟨20, 30⟩, "q")]).1 = [] ∧
    map.scan (⟨5, 7⟩ : Interval)
        [((⟨0, 10⟩ : Interval), "p"), (⟨20, 30⟩, "q")]
      = [(⟨0, 10⟩, "p")] := by
  decide

/-! ## Fast path and RPC path -/

open map in
/-- C12: for a handle whose `my_server` is `hash(k) mod N`, `Put`, `Get` and
`Erase` with `server_on_node` take the local branch on the handle's own
store, without `server_on_node` they call the handler of shard
`hash(k) mod N` over RPC, and the two give the same result and the same
cluster state. -/
theorem map_fast_path_refines_rpc {K V : Type} [RangeKey K] [Inhabited V]
    (is_server : Bool) (my_server num_servers : Nat) (name : String)
    (c : Cluster (MyMap K V)) (key : K) (data : V)
    (hN : 1 ≤ num_servers) (hS : c.server_list = num_servers)
    (h16 : my_server < 2 ^ 16)
    (hmy : my_server = (Key.keyHash key % 2 ^ 64) % num_servers) :
    ((map.mk is_server my_server num_servers true name).Put c key data
        = .ok (c.run my_server (LocalPut key data)) ∧
      (map.mk is_server my_server num_servers false name).Put c key data
        = (RPC.call (funcs name) c
            ((Key.keyHash key % 2 ^ 64) % num_servers)
            (name ++ "_Put") [.key key, .data data]).bind MapObj.as_bool ∧
      (map.mk is_server my_server num_servers true name).Put c key data
        = (map.mk is_server my_server num_servers false name).Put c key
            data) ∧
    ((map.mk is_server my_server num_servers true name).Get c key
        = .ok (c.run my_server (LocalGet key)) ∧
      (map.mk is_server my_server num_servers false name).Get c key
        = (RPC.call (funcs name) c
            ((Key.keyHash key % 2 ^ 64) % num_servers)
            (name ++ "_Get") [.key key]).bind MapObj.as_pair ∧
      (map.mk is_server my_server num_servers true name).Get c key
        = (map.mk is_server my_server num_servers false name).Get c key) ∧
    ((map.mk is_server my_server num_servers true name).Erase c key
        = .ok (c.run my_server (LocalErase key)) ∧
      (map.mk is_server my_server num_servers false name).Erase c key
        = (RPC.call (funcs name) c
            ((Key.keyHash key % 2 ^ 64) % num_servers)
            (name ++ "_Erase") [.key key]).bind MapObj.as_pair ∧
      (map.mk is_server my_server num_servers true name).Erase c key
        = (map.mk is_server my_server num_servers false name).Erase c
            key) := by
  have hkv : ((Key.keyHash key % 2 ^ 64) % num_servers) % 2 ^ 16
      = (Key.keyHash key % 2 ^ 64) % num_servers :=
    Nat.mod_eq_of_lt (hmy ▸ h16)
  have hk : ∀ b : Bool,
      (map.mk is_server my_server num_servers b name : map K V).key_int key
        = (Key.keyHash key % 2 ^ 64) % num_servers := fun _ => hkv
  have hfast : ∀ {α : Type} (x y : α),
      (if (decide ((Key.keyHash key % 2 ^ 64) % num_servers = my_server)
          && true) = true then x else y) = x := by
    intro α x y
    rw [← hmy]
    simp
  refine ⟨⟨?_, ?_, ?_⟩, ⟨?_, ?_, ?_⟩, ⟨?_, ?_, ?_⟩⟩
  · unfold Put
    rw [hk]
    exact hfast _ _
  · unfold Put
    rw [hk]
    simp
  · rw [Put_eq _ c key data hN hS, Put_eq _ c key data hN hS, hk, hk]
  · unfold Get
    rw [hk]
    exact hfast _ _
  · unfold Get
    rw [hk]
    simp
  · rw [Get_eq _ c key hN hS, Get_eq _ c key hN hS, hk, hk]
  · unfold Erase
    rw [hk]
    exact hfast _ _
  · unfold Erase
    rw [hk]
    simp
  · rw [Erase_eq _ c key hN hS, Erase_eq _ c key hN hS, hk, hk]

/-- C12 at a concrete input: three servers, the key `[4,9]` (routed to shard
1) and the handle of server 1, shard 1 holding `[4,6] → "old"`. -/
theorem map_fast_path_refines_rpc_witness :
    (map.mk true 1 3 true "t" : map Interval String).Put
        (Cluster.mk 3 (fun _ => [((⟨4, 6⟩ : Interval), "old")])) ⟨4, 9⟩ "x"
      = (map.mk true 1 3 false "t" : map Interval String).Put
        (Cluster.mk 3 (fun _ => [((⟨4, 6⟩ : Interval), "old")])) ⟨4, 9⟩ "x" :=
  (map_fast_path_refines_rpc true 1 3 "t"
    (Cluster.mk 3 (fun _ => [((⟨4, 6⟩ : Interval), "old")])) ⟨4, 9⟩ "x"
    (by decide) rfl (by decide) (by decide)).1.2.2

/-! ## Endpoints -/

theorem to_uint16_to_int16 (n : Nat) (hn : n ≤ 65535) :
    to_uint16 (to_int16 (n : Int)) = n := by
  unfold to_uint16 to_int16
  omega

/-- C13: when `server_port + s` is at most 65535 and `server_list` has an
entry `s`, `RPC::call` and `RPC::async_call` connect to that host on port
`server_port + s`; the signed 16-bit intermediate holds the sum itself below
`2 ^ 15` and the sum less `2 ^ 16` from there on. -/
theorem rpc_endpoint_port (server_list : List String)
    (server_port s : Nat) (host : String)
    (hport : server_port + s ≤ 65535)
    (hhost : server_list.get? s = some host) :
    RPC.call_endpoint server_list server_port s
      = some (host, server_port + s) ∧
    RPC.async_call_endpoint server_list server_port s
      = some (host, server_port + s) ∧
    to_int16 ((server_port : Int) + (s : Int))
      = (if server_port + s < 2 ^ 15 then ((server_port + s : Nat) : Int)
          else ((server_port + s : Nat) : Int) - 2 ^ 16) := by
  have hp : to_uint16 (to_int16 ((server_port : Int) + (s : Int)))
      = server_port + s := by
    have := to_uint16_to_int16 (server_port + s) hport
    rwa [Nat.cast_add] at this
  refine ⟨?_, ?_, ?_⟩
  · simp only [RPC.call_endpoint, hhost, hp]
  · simp only [RPC.async_call_endpoint, hhost, hp]
  · unfold to_int16
    split_ifs with h <;> omega

/-- C13 at a concrete input: base port 60000 and shard 2 of three hosts, a
sum above `2 ^ 15`. -/
theorem rpc_endpoint_port_witness :
    RPC.call_endpoint ["n0", "n1", "n2"] 60000 2 = some ("n2", 60002) ∧
    RPC.async_call_endpoint ["n0", "n1", "n2"] 60000 2
      = some ("n2", 60002) ∧
    to_int16 ((60000 : Nat) + (2 : Nat))
      = (if 60000 + 2 < 2 ^ 15 then ((60000 + 2 : Nat) : Int)
          else ((60000 + 2 : Nat) : Int) - 2 ^ 16) :=
  rpc_endpoint_port ["n0", "n1", "n2"] 60000 2 "n2" (by decide) rfl

/-! ## Routing invariant, idempotence and frame -/

namespace MyMap

variable {K V : Type} [Key K]

theorem mem_erase (m : MyMap K V) (key : K) (x : K × V) :
    x ∈ (m.erase key).2 → x ∈ m := by
  induction m with
  | nil => intro hx; simp [erase] at hx
  | cons e rest ih =>
    intro hx
    cases h1 : Key.Compare e.1 key with
    | true =>
      simp only [erase, h1, if_true, List.mem_cons] at hx
      rcases hx with hx | hx
      · rw [hx]; exact List.mem_cons_self _ _
      · exact List.mem_cons_of_mem _ (ih hx)
    | false =>
      cases h2 : Key.Compare key e.1 with
      | true =>
        simpa [erase, h1, h2] using hx
      | false =>
        simp only [erase, h1, h2, Bool.false_eq_true, if_false] at hx
        exact List.mem_cons_of_mem _ hx

theorem insert_or_assign_idem [StrictWeak K] (m : MyMap K V) (key : K)
    (data : V) :
    (m.insert_or_assign key data).insert_or_assign key data
      = m.insert_or_assign key data := by
  induction m with
  | nil => simp [insert_or_assign, StrictWeak.irrefl]
  | cons e rest ih =>
    cases h1 : Key.Compare e.1 key with
    | true => simp [insert_or_assign, h1, ih]
    | false =>
      cases h2 : Key.Compare key e.1 with
      | true => simp [insert_or_assign, h1, h2, StrictWeak.irrefl]
      | false => simp [insert_or_assign, h1, h2]

theorem find_insert_or_assign_other [StrictWeak K] (m : MyMap K V)
    (key key' : K) (data : V) (hne : ¬ equiv key key') :
    (m.insert_or_assign key data).find key' = m.find key' := by
  have hor : Key.Compare key key' = true ∨ Key.Compare key' key = true := by
    by_contra hc
    simp only [not_or, Bool.not_eq_true] at hc
    exact hne ⟨hc.1, hc.2⟩
  induction m with
  | nil =>
    rcases hor with h | h
    · simp [insert_or_assign, find, h]
    · cases h' : Key.Compare key key' <;> simp [insert_or_assign, find, h, h']
  | cons e rest ih =>
    cases h1 : Key.Compare e.1 key with
    | true =>
      simp only [insert_or_assign, h1, if_true, find, ih]
    | false =>
      cases h2 : Key.Compare key e.1 with
      | true =>
        simp only [insert_or_assign, h1, h2, if_true, Bool.false_eq_true,
          if_false]
        cases h3 : Key.Compare key key' with
        | true => simp [find, h3]
        | false =>
          have h4 : Key.Compare key' key = true := by
            rcases hor with h | h
            · rw [h3] at h; exact Bool.noConfusion h
            · exact h
          have h5 : Key.Compare e.1 key' = false := by
            by_contra hx
            simp only [Bool.not_eq_false] at hx
            have := StrictWeak.trans _ _ _ hx h4
            rw [h1] at this; exact Bool.noConfusion this
          have h6 : Key.Compare key' e.1 = true :=
            StrictWeak.trans _ _ _ h4 h2
          simp [find, h3, h4, h5, h6]
      | false =>
        simp only [insert_or_assign, h1, h2, Bool.false_eq_true, if_false]
        cases h3 : Key.Compare e.1 key' with
        | true => simp [find, h3]
        | false =>
          cases h4 : Key.Compare key' e.1 with
          | true => simp [find, h3, h4]
          | false =>
            have := StrictWeak.incomp key e.1 key' h2 h1 h3 h4
            exact absurd ⟨this.1, this.2⟩ hne

theorem find_erase_other [StrictWeak K] (m : MyMap K V) (key key' : K)
    (hne : ¬ equiv key key') (hm : m.Sorted) :
    (m.erase key).2.find key' = m.find key' := by
  induction m with
  | nil => simp [erase]
  | cons e rest ih =>
    unfold Sorted at hm
    rw [List.pairwise_cons] at hm
    obtain ⟨he, hrest⟩ := hm
    cases h1 : Key.Compare e.1 key with
    | true =>
      simp only [erase, h1, if_true, find, ih hrest]
    | false =>
      cases h2 : Key.Compare key e.1 with
      | true => simp [erase, h1, h2]
      | false =>
        simp only [erase, h1, h2, Bool.false_eq_true, if_false]
        cases h3 : Key.Compare e.1 key' with
        | true => simp [find, h3]
        | false =>
          cases h4 : Key.Compare key' e.1 with
          | false =>
            have := StrictWeak.incomp key e.1 key' h2 h1 h3 h4
            exact absurd ⟨this.1, this.2⟩ hne
          | true =>
            simp only [find, h3, h4, Bool.false_eq_true, if_false, if_true]
            cases rest with
            | nil => simp [find]
            | cons r rest2 =>
              have her := he r (List.mem_cons_self _ _)
              have hkr : Key.Compare key' r.1 = true :=
                StrictWeak.trans _ _ _ h4 her
              have hrk : Key.Compare r.1 key' = false := by
                by_contra hx
                simp only [Bool.not_eq_false] at hx
                have := StrictWeak.trans _ _ _ her hx
                rw [h3] at this; exact Bool.noConfusion this
              simp [find, hkr, hrk]

end MyMap

namespace map

variable {K V : Type} [RangeKey K] [Inhabited V]

omit [Inhabited V] in
theorem key_int_eq (h : map K V) (key : K)
    (hN : 1 ≤ h.num_servers) (hN16 : h.num_servers ≤ 65536) :
    h.key_int key = (Key.keyHash key % 2 ^ 64) % h.num_servers := by
  unfold key_int
  apply Nat.mod_eq_of_lt
  have := Nat.mod_lt (Key.keyHash key % 2 ^ 64) hN
  omega

theorem Reachable_routed (N : Nat) (hN : 1 ≤ N) (hN16 : N ≤ 65536)
    (c : Cluster (MyMap K V)) (hc : Reachable N c) :
    c.server_list = N ∧
      ∀ i, ∀ e ∈ c.shard i, (Key.keyHash e.1 % 2 ^ 64) % N = i := by
  induction hc with
  | init c hS hempty =>
    refine ⟨hS, ?_⟩
    intro i e he
    rw [hempty i] at he
    exact absurd he (List.not_mem_nil _)
  | put h c c' key data b _ hn _ hput ih =>
    obtain ⟨hS, hr⟩ := ih
    subst hn
    rw [Put_eq h c key data hN hS] at hput
    injection hput with hput
    injection hput with _ hc'
    subst hc'
    refine ⟨by rw [Cluster.set_server_list, hS], ?_⟩
    intro i e he
    by_cases hi : i = h.key_int key
    · rw [hi, Cluster.set_shard_same] at he
      rcases MyMap.mem_insert_or_assign _ key data e he with h1 | ⟨y, hy, h1⟩
      · rw [h1, hi, key_int_eq h key hN hN16]
      · rw [h1, hi]; exact hr _ y hy
    · rw [Cluster.set_shard_other _ _ _ _ hi] at he
      exact hr i e he
  | erase h c c' key r _ hn _ herase ih =>
    obtain ⟨hS, hr⟩ := ih
    subst hn
    rw [Erase_eq h c key hN hS] at herase
    injection herase with herase
    injection herase with _ hc'
    subst hc'
    refine ⟨by rw [Cluster.set_server_list, hS], ?_⟩
    intro i e he
    by_cases hi : i = h.key_int key
    · rw [hi, Cluster.set_shard_same] at he
      rw [hi]
      exact hr _ e (MyMap.mem_erase _ key e he)
    · rw [Cluster.set_shard_other _ _ _ _ hi] at he
      exact hr i e he

end map

/-- C14: with `1 ≤ N ≤ 65536`, in every cluster state reachable from
all-empty shards by `Put` and `Erase` calls through any handles with
`num_servers = N` and `my_server < N`, every key stored in shard `i` has
`hash(k) mod N = i`, and so no key is stored in two shards. -/
theorem map_routing_invariant {K V : Type} [RangeKey K] [Inhabited V]
    (N : Nat) (c : Cluster (MyMap K V)) (hN : 1 ≤ N) (hN16 : N ≤ 65536)
    (hc : map.Reachable N c) :
    (∀ i, ∀ e ∈ c.shard i, (Key.keyHash e.1 % 2 ^ 64) % N = i) ∧
    (∀ i j, ∀ e ∈ c.shard i, ∀ e' ∈ c.shard j, e.1 = e'.1 → i = j) := by
  have hr := (map.Reachable_routed N hN hN16 c hc).2
  refine ⟨hr, ?_⟩
  intro i j e he e' he' heq
  rw [← hr i e he, ← hr j e' he', heq]

/-- C14 at a concrete input: two servers, the state after `Put([5,7], "x")`
through the handle of server 0. -/
theorem map_routing_invariant_witness :
    map.Reachable 2
        ((Cluster.mk 2 (fun _ => ([] : MyMap Interval String))).set 1
          [(⟨5, 7⟩, "x")]) ∧
    (∀ i, ∀ e ∈ ((Cluster.mk 2 (fun _ => ([] : MyMap Interval String))).set 1
          [(⟨5, 7⟩, "x")]).shard i,
        (Key.keyHash e.1 % 2 ^ 64) % 2 = i) ∧
    (∀ i j,
      ∀ e ∈ ((Cluster.mk 2 (fun _ => ([] : MyMap Interval String))).set 1
          [(⟨5, 7⟩, "x")]).shard i,
      ∀ e' ∈ ((Cluster.mk 2 (fun _ => ([] : MyMap Interval String))).set 1
          [(⟨5, 7⟩, "x")]).shard j, e.1 = e'.1 → i = j) :=
  have hreach : map.Reachable 2
      ((Cluster.mk 2 (fun _ => ([] : MyMap Interval String))).set 1
        [(⟨5, 7⟩, "x")]) :=
    map.Reachable.put (map.mk true 0 2 true "t")
      (Cluster.mk 2 (fun _ => [])) _ ⟨5, 7⟩ "x" true
      (map.Reachable.init _ rfl (fun _ => rfl)) rfl (by decide) rfl
  ⟨hreach, map_routing_invariant 2 _ (by decide) (by decide) hreach⟩

open map in
/-- C15: from every cluster state, `Put(k, v)` returns `true` and leaves a
state from which a second `Put(k, v)` returns `true` and leaves the same
state. -/
theorem map_put_idempotent {K V : Type} [RangeKey K] [StrictWeak K]
    [Inhabited V] (h : map K V) (c : Cluster (MyMap K V)) (key : K)
    (data : V) (hN : 1 ≤ h.num_servers)
    (hS : c.server_list = h.num_servers) :
    ∃ c1, h.Put c key data = .ok (true, c1) ∧
      h.Put c1 key data = .ok (true, c1) := by
  refine ⟨_, Put_eq h c key data hN hS, ?_⟩
  rw [Put_eq h _ key data hN (by rw [Cluster.set_server_list, hS]),
    Cluster.set_shard_same, MyMap.insert_or_assign_idem]
  simp [Cluster.set, Function.update_idem]

/-- C15 at a concrete input: two servers, the key `[5,7]` already stored
with another value, the calls going over RPC. -/
theorem map_put_idempotent_witness :
    ∃ c1, (map.mk true 0 2 false "t" : map Interval String).Put
        (Cluster.mk 2 (fun _ => [((⟨5, 9⟩ : Interval), "old")])) ⟨5, 7⟩ "x"
        = .ok (true, c1) ∧
      (map.mk true 0 2 false "t" : map Interval String).Put c1 ⟨5, 7⟩ "x"
        = .ok (true, c1) :=
  map_put_idempotent (map.mk true 0 2 false "t")
    (Cluster.mk 2 (fun _ => [((⟨5, 9⟩ : Interval), "old")])) ⟨5, 7⟩ "x"
    (by decide) rfl

namespace map

variable {K V : Type} [RangeKey K] [Inhabited V]

omit [RangeKey K] in
theorem LocalGet_congr [Key K] (key : K) (m1 m2 : MyMap K V)
    (hf : m1.find key = m2.find key) :
    (LocalGet key m1).1 = (LocalGet key m2).1 := by
  unfold LocalGet
  rw [hf]
  cases m2.find key <;> rfl

theorem Get_after_set [StrictWeak K] (h : map K V) (c : Cluster (MyMap K V))
    (key' : K) (i : Nat) (s : MyMap K V)
    (hN : 1 ≤ h.num_servers) (hS : c.server_list = h.num_servers)
    (hf : s.find key' = (c.shard i).find key') :
    ∃ g, h.Get c key' = .ok (g, c) ∧
      h.Get (c.set i s) key' = .ok (g, c.set i s) := by
  refine ⟨_, Get_eq h c key' hN hS, ?_⟩
  rw [Get_eq h _ key' hN (by rw [Cluster.set_server_list, hS])]
  by_cases hi : h.key_int key' = i
  · rw [hi, Cluster.set_shard_same, LocalGet_congr key' _ _ hf]
  · rw [Cluster.set_shard_other _ _ _ _ hi]

end map

/-- C16 as stated fails, in two ways. On 65537 servers the key
`[65536, 65540]` has `hash(k) mod N = 65536`, and `Put` through the handle
of server 0 changes shard 0, the shard its 16-bit index addresses, and
leaves shard 65536 empty. On two servers with `[5,9] → "b"` stored, `Put` of
the other key `[5,7]` changes the result of `Get([5,9])` from `(true, "b")`
to `(true, "x")`: the two keys are equivalent under `Compare`. -/
theorem map_frame_fails_as_stated :
    ((Key.keyHash (⟨65536, 65540⟩ : Interval) % 2 ^ 64) % 65537 = 65536 ∧
      ∃ c', (map.mk true 0 65537 true "t" : map Interval String).Put
          (Cluster.mk 65537 (fun _ => [])) ⟨65536, 65540⟩ "x"
          = .ok (true, c') ∧
        (Cluster.mk 65537 (fun _ => ([] : MyMap Interval String))).shard 0
          = [] ∧
        c'.shard 0 = [(⟨65536, 65540⟩, "x")] ∧
        c'.shard 65536 = []) ∧
    ((⟨5, 7⟩ : Interval) ≠ ⟨5, 9⟩ ∧
      (∃ c', (map.mk true 0 2 true "t" : map Interval String).Get
          (Cluster.mk 2 (fun i => if i = 1 then
            [((⟨5, 9⟩ : Interval), "b")] else [])) ⟨5, 9⟩
          = .ok ((true, "b"), c')) ∧
      ∃ c1, (map.mk true 0 2 true "t" : map Interval String).Put
          (Cluster.mk 2 (fun i => if i = 1 then
            [((⟨5, 9⟩ : Interval), "b")] else [])) ⟨5, 7⟩ "x"
          = .ok (true, c1) ∧
        ∃ c', (map.mk true 0 2 true "t" : map Interval String).Get c1 ⟨5, 9⟩
          = .ok ((true, "x"), c')) :=
  ⟨⟨by decide, _, rfl, rfl, rfl, rfl⟩,
    ⟨by decide, ⟨_, rfl⟩, _, rfl, _, rfl⟩⟩

open map in
/-- C16 amended: with `1 ≤ N ≤ 65536` and keys `k`, `k'` that are not
equivalent under `Compare`, `Put(k, v)` and `Erase(k)` leave every shard
other than `hash(k) mod N` as it was and leave the result of `Get(k')` as it
was; `Get`, `Contains` and `GetAllData` give back the cluster state they
started from. -/
theorem map_frame {K V : Type} [RangeKey K] [StrictWeak K] [Inhabited V]
    (h : map K V) (c : Cluster (MyMap K V)) (key key' : K) (data : V)
    (hN : 1 ≤ h.num_servers) (hN16 : h.num_servers ≤ 65536)
    (hS : c.server_list = h.num_servers)
    (hmy : h.my_server < h.num_servers)
    (hsorted : (c.shard ((Key.keyHash key % 2 ^ 64) % h.num_servers)).Sorted)
    (hne : ¬ equiv key key') :
    (∃ c1, h.Put c key data = .ok (true, c1) ∧
      (∀ j, j ≠ (Key.keyHash key % 2 ^ 64) % h.num_servers →
        c1.shard j = c.shard j) ∧
      ∃ g, h.Get c key' = .ok (g, c) ∧ h.Get c1 key' = .ok (g, c1)) ∧
    (∃ r c2, h.Erase c key = .ok (r, c2) ∧
      (∀ j, j ≠ (Key.keyHash key % 2 ^ 64) % h.num_servers →
        c2.shard j = c.shard j) ∧
      ∃ g, h.Get c key' = .ok (g, c) ∧ h.Get c2 key' = .ok (g, c2)) ∧
    (∃ g, h.Get c key = .ok (g, c)) ∧
    (∃ l, h.Contains c key = .ok (l, c)) ∧
    (∃ l, h.GetAllData c = .ok (l, c)) := by
  have hk := key_int_eq h key hN hN16
  rw [← hk] at hsorted ⊢
  refine ⟨⟨_, Put_eq h c key data hN hS, ?_, ?_⟩,
    ⟨_, _, Erase_eq h c key hN hS, ?_, ?_⟩,
    ⟨_, Get_eq h c key hN hS⟩, ⟨_, Contains_eq h c key hS hmy⟩,
    ⟨_, GetAllData_eq h c hS hmy⟩⟩
  · intro j hj
    exact Cluster.set_shard_other _ _ _ _ hj
  · exact Get_after_set h c key' _ _ hN hS
      (MyMap.find_insert_or_assign_other _ key key' data hne)
  · intro j hj
    exact Cluster.set_shard_other _ _ _ _ hj
  · exact Get_after_set h c key' _ _ hN hS
      (MyMap.find_erase_other _ key key' hne hsorted)

/-- C16 amended at a concrete input: two servers, both keys `[5,7]` and
`[3,4]` routed to shard 1, which holds `[3,4] → "a"` and `[5,9] → "b"`. -/
theorem map_frame_witness :
    ∃ c1, (map.mk true 0 2 true "t" : map Interval String).Put
        (Cluster.mk 2 (fun i => if i = 1 then
          [((⟨3, 4⟩ : Interval), "a"), (⟨5, 9⟩, "b")] else []))
        ⟨5, 7⟩ "x" = .ok (true, c1) ∧
      (∀ j, j ≠ (Key.keyHash (⟨5, 7⟩ : Interval) % 2 ^ 64) % 2 →
        c1.shard j = (Cluster.mk 2 (fun i => if i = 1 then
          [((⟨3, 4⟩ : Interval), "a"), (⟨5, 9⟩, "b")] else [])).shard j) ∧
      ∃ g, (map.mk true 0 2 true "t" : map Interval String).Get
          (Cluster.mk 2 (fun i => if i = 1 then
            [((⟨3, 4⟩ : Interval), "a"), (⟨5, 9⟩, "b")] else []))
          ⟨3, 4⟩ = .ok (g, Cluster.mk 2 (fun i => if i = 1 then
            [((⟨3, 4⟩ : Interval), "a"), (⟨5, 9⟩, "b")] else [])) ∧
        (map.mk true 0 2 true "t" : map Interval String).Get c1 ⟨3, 4⟩
          = .ok (g, c1) :=
  (map_frame (map.mk true 0 2 true "t")
    (Cluster.mk 2 (fun i => if i = 1 then
      [((⟨3, 4⟩ : Interval), "a"), (⟨5, 9⟩, "b")] else []))
    ⟨5, 7⟩ ⟨3, 4⟩ "x" (by decide) (by decide) rfl (by decide)
    (by simp [MyMap.Sorted, Key.Compare, Key.keyHash])
    (by simp [equiv, Key.Compare])).1

/-! ## Handler names of different collections -/

theorem split_at_separator (sep : Char) (a b x y : List Char)
    (ha : sep ∉ a) (hb : sep ∉ b) (h : a ++ sep :: x = b ++ sep :: y) :
    a = b ∧ x = y := by
  induction a generalizing b with
  | nil =>
    cases b with
    | nil => exact ⟨rfl, by simpa using h⟩
    | cons d b =>
      simp only [List.nil_append, List.cons_append, List.cons.injEq] at h
      exact absurd (h.1 ▸ List.mem_cons_self _ _) hb
  | cons c a ih =>
    cases b with
    | nil =>
      simp only [List.nil_append, List.cons_append, List.cons.injEq] at h
      exact absurd (h.1 ▸ List.mem_cons_self _ _) ha
    | cons d b =>
      simp only [List.cons_append, List.cons.injEq] at h
      obtain ⟨h1, h2⟩ := ih b (fun hm => ha (List.mem_cons_of_mem _ hm))
        (fun hm => hb (List.mem_cons_of_mem _ hm)) h.2
      exact ⟨by rw [h.1, h1], h2⟩

theorem ops_have_no_separator : ∀ o ∈ ops, '_' ∉ o.data := by
  decide

theorem handler_name_data (n o : String) :
    (handler_name n o).data = n.data ++ '_' :: o.data := by
  simp [handler_name, String.data_append]

theorem handler_name_injective (n1 n2 o1 o2 : String)
    (h1 : '_' ∉ o1.data) (h2 : '_' ∉ o2.data)
    (h : handler_name n1 o1 = handler_name n2 o2) :
    n1 = n2 ∧ o1 = o2 := by
  have hd : (handler_name n1 o1).data.reverse
      = (handler_name n2 o2).data.reverse := by rw [h]
  simp only [handler_name_data, List.reverse_append, List.reverse_cons,
    List.append_assoc, List.singleton_append] at hd
  obtain ⟨ho, hn⟩ := split_at_separator '_' _ _ _ _
    (fun hm => h1 (List.mem_reverse.1 hm))
    (fun hm => h2 (List.mem_reverse.1 hm)) hd
  exact ⟨String.ext (List.reverse_injective hn),
    String.ext (List.reverse_injective ho)⟩

/-- Collections with different names bind disjoint sets of handler names. -/
theorem distinct_collections_bind_disjoint_names (n1 n2 : String)
    (hne : n1 ≠ n2) :
    ∀ x ∈ ops.map (handler_name n1), x ∉ ops.map (handler_name n2) := by
  intro x hx hx'
  obtain ⟨o1, ho1, rfl⟩ := List.mem_map.1 hx
  obtain ⟨o2, ho2, heq⟩ := List.mem_map.1 hx'
  exact hne (handler_name_injective n1 n2 o1 o2
    (ops_have_no_separator o1 ho1) (ops_have_no_separator o2 ho2)
    heq.symm).1

/-- C17: for collection names `n1`, `n2` and operation suffixes `o1`, `o2`
of the handler naming scheme, `n1 + "_" + o1 = n2 + "_" + o2` only when
`n1 = n2` and `o1 = o2`. -/
theorem handler_names_do_not_collide (n1 n2 o1 o2 : String)
    (h1 : o1 ∈ ops) (h2 : o2 ∈ ops)
    (h : handler_name n1 o1 = handler_name n2 o2) :
    n1 = n2 ∧ o1 = o2 :=
  handler_name_injective n1 n2 o1 o2 (ops_have_no_separator o1 h1)
    (ops_have_no_separator o2 h2) h

/-- C17 at a concrete input: the collection `"t"` and the suffix `"Put"` on
both sides, the one way for two handler names to be equal. -/
theorem handler_names_do_not_collide_witness :
    handler_name "t" "Put" = "t_Put" ∧ "t" = "t" ∧ "Put" = "Put" :=
  ⟨by decide,
    handler_names_do_not_collide "t" "t" "Put" "Put" (by decide) (by decide)
      rfl⟩

/-- The names the constructors bind are handler names of the scheme. -/
theorem bound_names (n : String) :
    (map.funcs (K := Interval) (V := String) n).map (fun b => b.name)
      = ["Put", "Get", "Erase", "GetAllData", "Contains"].map
          (handler_name n) ∧
    (priority_queue.funcs (V := Int) n).map (fun b => b.name)
      = ["Push", "Pop", "Top", "Size"].map (handler_name n) := by
  have hcat : ∀ o : String, n ++ "_" ++ o = n ++ ("_" ++ o) := by
    intro o
    apply String.ext
    simp [String.data_append]
  constructor
  · simp only [map.funcs, handler_name, List.map, hcat]
    rfl
  · simp only [priority_queue.funcs, handler_name, List.map, hcat]
    rfl

/-! ## Fan-out: one server, and the order of the shards -/

namespace map

variable {K V : Type} [RangeKey K] [Inhabited V]

theorem ContainsInServer_eq (h : map K V) (c : Cluster (MyMap K V))
    (key : K) (hS : c.server_list = h.num_servers)
    (hmy : h.my_server < h.num_servers) :
    h.ContainsInServer c key
      = .ok ((LocalContainsInServer key (c.shard h.my_server)).1, c) := by
  have h2 : ∀ m : MyMap K V, (LocalContainsInServer key m).2 = m := by
    intro m
    unfold LocalContainsInServer
    simp only []
    split_ifs <;> rfl
  unfold ContainsInServer
  split_ifs
  · simp [Cluster.run, h2, Cluster.set_self]
  · exact call_Contains _ c _ key (hS ▸ hmy)

omit [Inhabited V] in
theorem scan_sublist (key : K) (l : List (K × V)) :
    (scan key l).Sublist l := by
  induction l with
  | nil => exact List.Sublist.refl _
  | cons a rest ih =>
    cases h1 : (RangeKey.Contains key a.1 || RangeKey.Contains a.1 key) with
    | false => simp [scan, h1]
    | true =>
      simp only [scan, h1, Bool.not_true, Bool.false_eq_true, if_false]
      exact ih.cons₂ a

omit [Inhabited V] in
theorem LocalContainsInServer_sublist (key : K) (mymap : MyMap K V) :
    (LocalContainsInServer key mymap).1.Sublist mymap := by
  unfold LocalContainsInServer
  simp only []
  split_ifs
  all_goals first
    | exact List.nil_sublist _
    | exact List.take_sublist _ _
    | exact (scan_sublist key _).trans (List.drop_sublist _ _)

omit [RangeKey K] [Inhabited V] in
theorem range_own_first_perm (n j : Nat) (hj : j < n) :
    (j :: (List.range n).filter (fun i => i ≠ j)).Perm (List.range n) := by
  have hp := List.perm_cons_erase (List.mem_range.2 hj)
  rw [List.Nodup.erase_eq_filter (List.nodup_range n) j] at hp
  have hfil : (List.range n).filter (fun i => i != j)
      = (List.range n).filter (fun i => i ≠ j) := by
    apply List.filter_congr
    intro x _
    by_cases hx : x = j <;> simp [hx]
  rw [hfil] at hp
  exact hp.symm

omit [RangeKey K] [Inhabited V] in
theorem flatMap_eq_nil_of (l : List Nat) (f : Nat → List (K × V))
    (hf : ∀ i ∈ l, f i = []) : l.flatMap f = [] := by
  induction l with
  | nil => rfl
  | cons a l ih =>
    rw [List.flatMap_cons, hf a (List.mem_cons_self _ _),
      ih (fun i hi => hf i (List.mem_cons_of_mem _ hi))]
    rfl

end map

open map in
/-- C18: with one server and `my_server = 0`, `Contains(k)` returns exactly
what `LocalContainsInServer(k)` returns on shard 0, which is also what
`ContainsInServer(k)` returns, and the cluster state is given back. -/
theorem map_contains_single_server {K V : Type} [RangeKey K] [Inhabited V]
    (h : map K V) (c : Cluster (MyMap K V)) (key : K)
    (hN : h.num_servers = 1) (hmy : h.my_server = 0)
    (hS : c.server_list = 1) :
    h.Contains c key = .ok ((LocalContainsInServer key (c.shard 0)).1, c) ∧
    h.ContainsInServer c key
      = .ok ((LocalContainsInServer key (c.shard 0)).1, c) := by
  have hS' : c.server_list = h.num_servers := by rw [hS, hN]
  have hmy' : h.my_server < h.num_servers := by rw [hN, hmy]; exact Nat.one_pos
  refine ⟨?_, ?_⟩
  · have hnone : (List.range 1).filter (fun i => i ≠ 0) = [] := by decide
    rw [Contains_eq h c key hS' hmy', hN, hmy, hnone]
    simp
  · rw [ContainsInServer_eq h c key hS' hmy', hmy]

/-- C18 at a concrete input: one server holding `[0,10] → "p"` and
`[20,30] → "q"`, the key `[0,25]`, over RPC. -/
theorem map_contains_single_server_witness :
    (map.mk true 0 1 false "t" : map Interval String).Contains
        (Cluster.mk 1 (fun _ => [((⟨0, 10⟩ : Interval), "p"),
          (⟨20, 30⟩, "q")])) ⟨0, 25⟩
      = .ok ([(⟨0, 10⟩, "p")],
          Cluster.mk 1 (fun _ => [((⟨0, 10⟩ : Interval), "p"),
            (⟨20, 30⟩, "q")])) :=
  (map_contains_single_server (map.mk true 0 1 false "t")
    (Cluster.mk 1 (fun _ => [((⟨0, 10⟩ : Interval), "p"), (⟨20, 30⟩, "q")]))
    ⟨0, 25⟩ rfl rfl rfl).1

namespace map

variable {K V : Type}

theorem flatMap_one_source (n : Nat) (hn : 1 ≤ n) (f : Nat → List (K × V))
    (hf : ∀ i, i ≠ 0 → f i = []) : (List.range n).flatMap f = f 0 := by
  rw [← flatMap_own_first_zero n hn f,
    flatMap_eq_nil_of _ f
      (fun i hi => hf i (by simpa using (List.mem_filter.1 hi).2)),
    List.append_nil]

theorem flatMap_one_source_others (n : Nat) (hn : 2 ≤ n)
    (f : Nat → List (K × V)) (x : K × V) (h0 : f 0 = [x])
    (hf : ∀ i, i ≠ 0 → f i = []) :
    ((List.range n).filter (fun i => i ≠ 1)).flatMap f = [x] := by
  have hp := own_first_perm n 1 (by omega) f
  rw [flatMap_one_source n (by omega) f hf, hf 1 (by decide),
    List.nil_append, h0] at hp
  exact (List.singleton_perm.1 hp).symm

end map

/-- C19 as stated fails: on 65537 servers with `[0,10] → "p"` on shard 0 and
nothing elsewhere, `GetAllData()` through the handle of server 1 returns the
entry of shard 0 twice (the calls for `i = 0` and `i = 65536` both reach
shard 0), while the local result of shard 1 followed by those of every other
shard in ascending order holds it once. -/
theorem map_fan_out_repeats_narrowed_shard :
    (map.mk true 1 65537 true "t" : map Interval String).GetAllData
        (Cluster.mk 65537 (fun i => if i = 0 then [(⟨0, 10⟩, "p")] else []))
      = .ok ([(⟨0, 10⟩, "p"), (⟨0, 10⟩, "p")],
          Cluster.mk 65537 (fun i => if i = 0 then [(⟨0, 10⟩, "p")]
            else [])) ∧
    (Cluster.mk 65537 (fun i => if i = 0 then
          [((⟨0, 10⟩ : Interval), "p")] else [])).shard 1 ++
      ((List.range 65537).filter (fun i => i ≠ 1)).flatMap
        (Cluster.mk 65537 (fun i => if i = 0 then
          [((⟨0, 10⟩ : Interval), "p")] else [])).shard
      = [(⟨0, 10⟩, "p")] := by
  have hothers := map.flatMap_one_source_others 65536 (by decide)
    (fun i : Nat => if i = 0 then [((⟨0, 10⟩ : Interval), "p")] else [])
    (⟨0, 10⟩, "p") rfl (fun i hi => if_neg hi)
  have hsplit : (List.range 65537).filter (fun i => i ≠ 1)
      = (List.range 65536).filter (fun i => i ≠ 1) ++ [65536] := by
    rw [show (65537 : Nat) = Nat.succ 65536 from rfl, List.range_succ,
      List.filter_append]
    rfl
  constructor
  · rw [map.GetAllData_eq _ _ rfl (by decide)]
    show Except.ok (_ ++ ((List.range 65537).filter (fun i => i ≠ 1)).flatMap
      _, _) = _
    rw [hsplit, List.flatMap_append, map.flatMap_mod_eq 65536 (le_refl _),
      hothers]
    rfl
  · show _ ++ ((List.range 65537).filter (fun i => i ≠ 1)).flatMap _ = _
    rw [hsplit, List.flatMap_append, hothers]
    rfl

open map in
/-- C19 amended: for a handle with `my_server < N` and `N ≤ 65536`,
`GetAllData()` and `Contains(k)` return the local result of shard
`my_server` followed by the local results of every other shard in ascending
order; `my_server` and the other indices make up the `N` shards, each once,
and a local result lists entries in the order of the store. -/
theorem map_fan_out_each_shard_once {K V : Type} [RangeKey K] [Inhabited V]
    (h : map K V) (c : Cluster (MyMap K V)) (key : K)
    (hS : c.server_list = h.num_servers)
    (hmy : h.my_server < h.num_servers)
    (hN16 : h.num_servers ≤ 65536) :
    h.GetAllData c = .ok (c.shard h.my_server ++
      ((List.range h.num_servers).filter (fun i => i ≠ h.my_server)).flatMap
        c.shard, c) ∧
    h.Contains c key
      = .ok ((LocalContainsInServer key (c.shard h.my_server)).1 ++
      ((List.range h.num_servers).filter (fun i => i ≠ h.my_server)).flatMap
        (fun i => (LocalContainsInServer key (c.shard i)).1), c) ∧
    (h.my_server ::
      (List.range h.num_servers).filter (fun i => i ≠ h.my_server)).Perm
        (List.range h.num_servers) ∧
    ((List.range h.num_servers).filter
      (fun i => i ≠ h.my_server)).Pairwise (fun i j => i < j) ∧
    (∀ i, (LocalGetAllDataInServer (c.shard i)).1 = c.shard i ∧
      (LocalContainsInServer key (c.shard i)).1.Sublist (c.shard i)) := by
  refine ⟨?_, ?_, range_own_first_perm _ _ hmy,
    (List.pairwise_lt_range _).filter _,
    fun i => ⟨rfl, LocalContainsInServer_sublist key _⟩⟩
  · rw [GetAllData_eq h c hS hmy, flatMap_mod_eq _ hN16]
  · rw [Contains_eq h c key hS hmy, flatMap_mod_eq _ hN16 _
      (fun i => (LocalContainsInServer key (c.shard i)).1)]

/-- C19 amended at a concrete input: three servers holding `[3,3]`, `[1,1]`
and `[4,9]`, and `[2,2]`, read through the handle of server 1. -/
theorem map_fan_out_each_shard_once_witness :
    (map.mk true 1 3 false "t" : map Interval String).GetAllData
        (Cluster.mk 3 (fun i => if i = 0 then [(⟨3, 3⟩, "c")]
          else if i = 1 then [(⟨1, 1⟩, "a"), (⟨4, 9⟩, "d")]
          else [(⟨2, 2⟩, "b")]))
      = .ok ([(⟨1, 1⟩, "a"), (⟨4, 9⟩, "d"), (⟨3, 3⟩, "c"), (⟨2, 2⟩, "b")],
          Cluster.mk 3 (fun i => if i = 0 then [(⟨3, 3⟩, "c")]
            else if i = 1 then [(⟨1, 1⟩, "a"), (⟨4, 9⟩, "d")]
            else [(⟨2, 2⟩, "b")])) :=
  (map_fan_out_each_shard_once (map.mk true 1 3 false "t")
    (Cluster.mk 3 (fun i => if i = 0 then [((⟨3, 3⟩ : Interval), "c")]
      else if i = 1 then [(⟨1, 1⟩, "a"), (⟨4, 9⟩, "d")]
      else [(⟨2, 2⟩, "b")])) (⟨0, 9⟩ : Interval) rfl (by decide)
    (by decide)).1

open map in
/-- C20: with `1 ≤ N ≤ 65536`, the 16-bit shard index of a key is
`hash(k) mod N` and is below `N`, and `Put`, `Get` and `Erase` each run
locally when that index is `my_server` and `server_on_node` holds and
otherwise call the handler of that shard. -/
theorem map_shard_index {K V : Type} [RangeKey K] [Inhabited V]
    (h : map K V) (c : Cluster (MyMap K V)) (key : K) (data : V)
    (hN : 1 ≤ h.num_servers) (hN16 : h.num_servers ≤ 65536) :
    h.key_int key = (Key.keyHash key % 2 ^ 64) % h.num_servers ∧
    h.key_int key < h.num_servers ∧
    h.Put c key data
      = (if ((Key.keyHash key % 2 ^ 64) % h.num_servers = h.my_server
            && h.server_on_node) = true then
          .ok (c.run h.my_server (LocalPut key data))
        else (RPC.call (funcs h.func_prefix) c
          ((Key.keyHash key % 2 ^ 64) % h.num_servers)
          ( h.func_prefix ++ "_Put") [.key key, .data data]).bind
            MapObj.as_bool) ∧
    h.Get c key
      = (if ((Key.keyHash key % 2 ^ 64) % h.num_servers = h.my_server
            && h.server_on_node) = true then
          .ok (c.run h.my_server (LocalGet key))
        else (RPC.call (funcs h.func_prefix) c
          ((Key.keyHash key % 2 ^ 64) % h.num_servers)
          ( h.func_prefix ++ "_Get") [.key key]).bind MapObj.as_pair) ∧
    h.Erase c key
      = (if ((Key.keyHash key % 2 ^ 64) % h.num_servers = h.my_server
            && h.server_on_node) = true then
          .ok (c.run h.my_server (LocalErase key))
        else (RPC.call (funcs h.func_prefix) c
          ((Key.keyHash key % 2 ^ 64) % h.num_servers)
          ( h.func_prefix ++ "_Erase") [.key key]).bind MapObj.as_pair) := by
  have hk := key_int_eq h key hN hN16
  refine ⟨hk, key_int_lt h key hN, ?_, ?_, ?_⟩
  · unfold Put; rw [hk]
  · unfold Get; rw [hk]
  · unfold Erase; rw [hk]

/-- C20 at a concrete input: 65536 servers and a key whose hash is
`2 ^ 16 + 5`. -/
theorem map_shard_index_witness :
    (map.mk true 0 65536 true "t" : map Interval String).key_int
        (⟨65541, 65550⟩ : Interval)
      = (Key.keyHash (⟨65541, 65550⟩ : Interval) % 2 ^ 64) % 65536 ∧
    (map.mk true 0 65536 true "t" : map Interval String).key_int
        (⟨65541, 65550⟩ : Interval) < 65536 :=
  ⟨(map_shard_index (map.mk true 0 65536 true "t")
      (Cluster.mk 65536 (fun _ => [])) (⟨65541, 65550⟩ : Interval) "x"
      (by decide)
      (by decide)).1,
    (map_shard_index (map.mk true 0 65536 true "t")
      (Cluster.mk 65536 (fun _ => [])) (⟨65541, 65550⟩ : Interval) "x"
      (by decide)
      (by decide)).2.1⟩

/-! ## The call sites of the priority queues against the bound handlers -/

namespace priority_queue

variable {V : Type} [Prio V] [Inhabited V]

/-- The remote branch of each operation issues the RPC that `remote_call`
lists, with that many arguments. -/
theorem remote_branch (h : priority_queue V) (c : Cluster (Queue V))
    (data : V) (s : Nat)
    (hremote : ¬ (s = h.my_server ∧ h.server_on_node = true)) :
    h.Push c data s
      = (RPC.call (funcs h.func_prefix) c s
          (remote_call h.func_prefix .Push).1 [.data data]).bind
            QueueObj.as_bool ∧
    h.Pop c s
      = (RPC.call (funcs h.func_prefix) c s
          (remote_call h.func_prefix .Pop).1 []).bind QueueObj.as_pair ∧
    h.Top c s
      = (RPC.call (funcs h.func_prefix) c s
          (remote_call h.func_prefix .Top).1 []).bind QueueObj.as_pair ∧
    h.Size c s
      = (RPC.call (funcs h.func_prefix) c s
          (remote_call h.func_prefix .Size).1 []).bind QueueObj.as_size ∧
    [QueueObj.data data].length = (remote_call h.func_prefix .Push).2 ∧
    ([] : List (QueueObj V)).length = (remote_call h.func_prefix .Pop).2 ∧
    ([] : List (QueueObj V)).length = (remote_call h.func_prefix .Top).2 ∧
    ([] : List (QueueObj V)).length = (remote_call h.func_prefix .Size).2 := by
  have hc : (decide (s = h.my_server) && h.server_on_node) = false := by
    simpa using hremote
  refine ⟨?_, ?_, ?_, ?_, rfl, rfl, rfl, rfl⟩
  · simp only [Push, hc, Bool.false_eq_true, if_false, remote_call]
  · simp only [Pop, hc, Bool.false_eq_true, if_false, remote_call]
  · simp only [Top, hc, Bool.false_eq_true, if_false, remote_call]
  · simp only [Size, hc, Bool.false_eq_true, if_false, remote_call]

/-- Off the fast path `Top` and `Size` are rejected like `Push` and `Pop`:
their calls carry no argument and the handlers take one. -/
theorem remote_top_size_rejected (h : priority_queue V)
    (c : Cluster (Queue V)) (s : Nat) (hs : s < c.server_list)
    (hremote : ¬ (s = h.my_server ∧ h.server_on_node = true)) :
    h.Top c s = .error .wrong_arity ∧ h.Size c s = .error .wrong_arity := by
  have hc : (decide (s = h.my_server) && h.server_on_node) = false := by
    simpa using hremote
  constructor
  · simp only [Top, hc, Bool.false_eq_true, if_false,
      call_Pop_none _ c s hs]
    rfl
  · simp only [Size, hc, Bool.false_eq_true, if_false,
      call_Size_none _ c s hs]
    rfl

end priority_queue

namespace DistributedPriorityQueue

variable {V : Type} [Prio V] [Inhabited V]

/-- The remote branch of each operation issues the RPC that `remote_call`
lists, with that many arguments. -/
theorem forward_branch (h : DistributedPriorityQueue V) (depth : Nat)
    (c : Cluster (Queue V)) (data : V) (s : Nat) (hother : s ≠ h.my_server) :
    h.Push depth c data s
      = (RPC.call (funcs h depth) c s
          (remote_call h.func_prefix .Push).1 [.data data]).bind
            QueueObj.as_bool ∧
    h.Pop depth c s
      = (RPC.call (funcs h depth) c s
          (remote_call h.func_prefix .Pop).1 []).bind QueueObj.as_pair ∧
    h.Top depth c s
      = (RPC.call (funcs h depth) c s
          (remote_call h.func_prefix .Top).1 []).bind QueueObj.as_pair ∧
    h.Size depth c s
      = (RPC.call (funcs h depth) c s
          (remote_call h.func_prefix .Size).1 []).bind QueueObj.as_size := by
  refine ⟨?_, ?_, ?_, ?_⟩
  · simp only [Push, PushOver, hother, if_false, remote_call]
  · simp only [Pop, PopOver, hother, if_false, remote_call]
  · simp only [Top, TopOver, hother, if_false, remote_call]
  · simp only [Size, SizeOver, hother, if_false, remote_call]

end DistributedPriorityQueue

/-- C21 on the code: for each of `Push`, `Pop`, `Top` and `Size`, in both
priority-queue classes, the name the remote branch passes to `rpc->call` is
bound by the server constructor, and the handler bound to it takes one
argument more than the call passes: `_Push` takes two and gets one, `_Pop`
and `_Size` take one and get none, and `Top` calls `_Pop` with none. -/
theorem priority_queue_remote_calls_lack_an_argument {V : Type} [Prio V]
    [Inhabited V] (name : String) (d : DistributedPriorityQueue V)
    (depth : Nat) (op : QueueOp) :
    (∃ b, (priority_queue.funcs (V := V) name).find?
          (fun b => b.name == (priority_queue.remote_call name op).1)
        = some b ∧
      b.arity = (priority_queue.remote_call name op).2 + 1) ∧
    (∃ b, (DistributedPriorityQueue.funcs d depth).find?
          (fun b => b.name
            == (DistributedPriorityQueue.remote_call d.func_prefix op).1)
        = some b ∧
      b.arity
        = (DistributedPriorityQueue.remote_call d.func_prefix op).2 + 1) ∧
    (priority_queue.remote_call name QueueOp.Top).1
      = (priority_queue.remote_call name QueueOp.Pop).1 ∧
    (DistributedPriorityQueue.remote_call name QueueOp.Top).1
      = (DistributedPriorityQueue.remote_call name QueueOp.Pop).1 := by
  refine ⟨?_, ?_, rfl, rfl⟩
  · cases op <;>
      simp [priority_queue.funcs, priority_queue.remote_call, List.find?,
        append_beq]
  · cases op <;> cases depth <;>
      simp [DistributedPriorityQueue.funcs,
        DistributedPriorityQueue.remote_call, List.find?, append_beq]

end basket
